import Mathlib

/-!
Verification development for the aslam_cv2 gyro-aided feature tracker
(src/aslam_cv/src/feature-tracker-gyro.cc) and the linear triangulator
(src/aslam_cv/include/aslam/triangulation/triangulation.h).

Modelling conventions of the shallow embedding:
* C++ `double`/`float` values are modelled as exact rationals `ℚ`;
  machine integers as `ℤ`/`ℕ` (wrap-around is modelled explicitly where the
  source can underflow, see `linearTriangulateFromNViews`).
* `static_cast<int>` of a real value truncates toward zero (`rtrunc`).
* Fatal glog `CHECK` macros are modelled either as explicit `Except` aborts
  (where state at the moment of the abort matters) or as separate decidable
  predicates named `...Check`/`...ChecksOk` (where the abort cannot observe
  any mutated state).
* The floating-point rank-revealing QR decomposition of Eigen is not
  re-implemented; its rank and minimum-norm solution enter the embedding of
  the triangulator as oracle parameters, while the assembled linear system
  and all control flow are translated from the source.
-/

attribute [local semireducible] Rat.add Rat.sub Rat.mul Rat.inv

/-- C++ `static_cast<int>` applied to a real (`double`) expression:
truncation toward zero. `Int.tdiv` is exactly C-style truncated division and
`q.den > 0`, so this is the truncation of `q`. -/
def rtrunc (q : ℚ) : ℤ := q.num.tdiv q.den

/-- `std::floor` of a real value followed by `static_cast<int>`, i.e. the
mathematical floor, in executable form (`Int.fdiv` is floor division). -/
def ratFloor (q : ℚ) : ℤ := q.num.fdiv q.den

/-- The `clamp` lambda of `GyroTracker::matchFeatures`:
`std::min(std::max(in, lower), upper)`. -/
def cppClamp (lower upper x : ℤ) : ℤ := min (max x lower) upper

/-! ## Bit distance kernel (`hammingDistance512` lambda, lines 287-299) -/

/-- Fuel-indexed version of the Kernighan loop
`while (val) { ++distance; val &= val - 1; }`; the fuel dominates the number
of iterations (each iteration strictly decreases `v`). -/
def popcntAux : ℕ → ℕ → ℕ
  | 0, _ => 0
  | fuel + 1, v => if v = 0 then 0 else popcntAux fuel (v &&& (v - 1)) + 1

/-- Population count of a byte value via the Kernighan loop. -/
def popcnt (v : ℕ) : ℕ := popcntAux v v

/-- The `hammingDistance512` lambda: sum over the descriptor bytes of the
population count of the XOR. Descriptors are byte strings, i.e. lists of
naturals below 256. -/
def hammingDistance512 (x y : List ℕ) : ℕ :=
  (List.zipWith (fun a b => popcnt (a ^^^ b)) x y).sum

/-- The fatal assertion `CHECK_LT(distance, descriptorSizeBytes * 8)` inside
the `hammingDistance512` lambda (line 297). -/
abbrev hammingDistanceCheck (descriptorSizeBytes : ℕ) (x y : List ℕ) : Prop :=
  hammingDistance512 x y < descriptorSizeBytes * 8

/-- Reference bit count of a byte: the number of set bits among its 8 bits.
Used as the specification-side meaning of `popcount`. -/
def bitSum8 (b : ℕ) : ℕ := ∑ i ∈ Finset.range 8, (b.testBit i).toNat

/-- Bytewise complement `~a` of a byte string (bytes below 256). -/
def byteComplement (x : List ℕ) : List ℕ := x.map (fun b => 255 - b)

/-! ## Data containers -/

/-- The keypoint-channel content of an `aslam::VisualFrame` that the tracker
reads and writes. Columns of the Eigen channel matrices become list entries;
all four channels are co-indexed. -/
structure VisualFrame where
  hardwareTimestamp : ℤ
  keypoints : List (ℚ × ℚ)
  descriptors : List (List ℕ)
  descriptorSizeBytes : ℕ
  scores : List ℚ
  trackIds : List ℤ
deriving DecidableEq

/-- 3-vector over the exact reals of the model. -/
structure Vec3 where
  x : ℚ
  y : ℚ
  z : ℚ
deriving DecidableEq

/-- Row-major 3x3 matrix. -/
structure Mat3 where
  r0 : Vec3
  r1 : Vec3
  r2 : Vec3
deriving DecidableEq

def Vec3.dot (a b : Vec3) : ℚ := a.x * b.x + a.y * b.y + a.z * b.z

def Vec3.add (a b : Vec3) : Vec3 := ⟨a.x + b.x, a.y + b.y, a.z + b.z⟩

def Vec3.neg (a : Vec3) : Vec3 := ⟨-a.x, -a.y, -a.z⟩

def Mat3.mulVec (M : Mat3) (v : Vec3) : Vec3 := ⟨M.r0.dot v, M.r1.dot v, M.r2.dot v⟩

def Mat3.col (M : Mat3) (j : Fin 3) : Vec3 :=
  match j with
  | 0 => ⟨M.r0.x, M.r1.x, M.r2.x⟩
  | 1 => ⟨M.r0.y, M.r1.y, M.r2.y⟩
  | 2 => ⟨M.r0.z, M.r1.z, M.r2.z⟩

def Mat3.mulMat (A B : Mat3) : Mat3 :=
  ⟨⟨A.r0.dot (B.col 0), A.r0.dot (B.col 1), A.r0.dot (B.col 2)⟩,
   ⟨A.r1.dot (B.col 0), A.r1.dot (B.col 1), A.r1.dot (B.col 2)⟩,
   ⟨A.r2.dot (B.col 0), A.r2.dot (B.col 1), A.r2.dot (B.col 2)⟩⟩

def Mat3.identity : Mat3 := ⟨⟨1, 0, 0⟩, ⟨0, 1, 0⟩, ⟨0, 0, 1⟩⟩

def Vec3.component (v : Vec3) (k : ℕ) : ℚ :=
  if k = 0 then v.x else if k = 1 then v.y else v.z

/-- The camera-model contract consumed by the tracker. `project3` returns the
projection status (`true` iff the `ProjectionResult` is a success, `false`
models "behind camera / outside the valid field") together with the pixel it
writes into its output argument; the source ignores the status. -/
structure Camera where
  imageWidth : ℕ
  imageHeight : ℕ
  backProject3 : ℚ × ℚ → Vec3
  project3 : Vec3 → Bool × (ℚ × ℚ)

/-! ## Row-indexed keypoint grid (matchFeatures, lines 233-259) -/

/-- An entry of `current_keypoints_by_y`: a keypoint measurement paired with
its original column index. -/
structure KeypointAndIndex where
  measurement : ℚ × ℚ
  index : ℕ
deriving DecidableEq

/-- Copy the current keypoints with their indices and sort ascending by the
y-coordinate (`std::sort` with comparator `lhs.y < rhs.y`; `std::sort` is
unstable, this embedding fixes the tie order by using a stable sort). -/
def sortKeypointsByY (kps : List (ℚ × ℚ)) : List KeypointAndIndex :=
  (kps.enum.map fun p => KeypointAndIndex.mk p.2 p.1).insertionSort
    (fun a b => a.measurement.2 ≤ b.measurement.2)

/-- The LUT construction loop (lines 252-258): walk `y` upward, advancing the
cursor `v` past all sorted keypoints with `kp.y < y`, and push the cursor
value for each row. First argument is the sorted keypoint list, then the
cursor, the current row, and the number of rows still to emit. -/
def lutScan (l : List KeypointAndIndex) : ℕ → ℕ → ℕ → List ℕ
  | _, _, 0 => []
  | v, y, rows + 1 =>
    let w := v + ((l.drop v).takeWhile (fun e => decide (e.measurement.2 < (y : ℚ)))).length
    w :: lutScan l w (y + 1) rows

/-- `corner_row_LUT`: for each image row `y` in `[0, H)`, the number of sorted
keypoints preceding the row. -/
def cornerRowLUT (l : List KeypointAndIndex) (imageHeight : ℕ) : List ℕ :=
  lutScan l 0 0 imageHeight

/-- The half-open iterator range `[begin + lut[top], begin + lut[bot])` into
the y-sorted keypoint list. -/
def lutSlice (sorted : List KeypointAndIndex) (lut : List ℕ) (top bot : ℕ) :
    List KeypointAndIndex :=
  (sorted.take (lut.getD bot 0)).drop (lut.getD top 0)

/-- The row-interval query `[y, y]` exactly as issued by the matcher
(lines 342-352): top row `min(y, H-1)`, bottom row `min(y+1, H-1)`, both
mapped through the LUT. -/
def rowQuery (kps : List (ℚ × ℚ)) (imageHeight y : ℕ) : List KeypointAndIndex :=
  let sorted := sortKeypointsByY kps
  let lut := cornerRowLUT sorted imageHeight
  lutSlice sorted lut (min y (imageHeight - 1)) (min (y + 1) (imageHeight - 1))

/-! ## Match search (matchFeatures, lines 301-423) -/

def kMatchingThresholdBits : ℤ := 120

def minSearchRadius : ℚ := 5

def searchRadius : ℚ := 10

/-- Matching score of a descriptor pair: `512 - hammingDistance512(...)`. -/
def descriptorScore (previousDescriptor currentDescriptor : List ℕ) : ℤ :=
  512 - (hammingDistance512 previousDescriptor currentDescriptor : ℤ)

/-- The loop state of the per-keypoint window scan: `found`, `best_score`,
`it_best` (absent while `found` is false, mirroring the uninitialized
iterator) and the marked entries of `processed_current_corners`. -/
structure SearchState where
  found : Bool
  bestScore : ℤ
  itBest : Option KeypointAndIndex
  processed : List ℕ
deriving DecidableEq

/-- One loop iteration of either window scan (lines 366-386 and 390-412):
optionally skip already-processed corners (second pass only), skip corners
outside the x-window, otherwise score the descriptor pair, take it as new
best on strict improvement, and mark the corner as processed. -/
def searchStep (currentDescriptors : List (List ℕ)) (previousDescriptor : List ℕ)
    (skipProcessed : Bool) (boundLeft boundRight : ℤ)
    (s : SearchState) (c : KeypointAndIndex) : SearchState :=
  if skipProcessed ∧ c.index ∈ s.processed then s
  else if c.measurement.1 < (boundLeft : ℚ) ∨ (boundRight : ℚ) < c.measurement.1 then s
  else
    let score := descriptorScore previousDescriptor (currentDescriptors.getD c.index [])
    let s1 : SearchState :=
      if s.bestScore < score then
        { found := true, bestScore := score, itBest := some c, processed := s.processed }
      else s
    { s1 with processed := c.index :: s1.processed }

/-- The per-previous-keypoint search bounds (lines 313-345), computed from the
predicted pixel: integer x-window bounds for both radii and the clamped
sorted-range row indices. -/
structure SearchBounds where
  boundLeftNearest : ℤ
  boundRightNearest : ℤ
  boundLeftNear : ℤ
  boundRightNear : ℤ
  nearestTop : ℕ
  nearestBottom : ℕ
  nearTop : ℕ
  nearBottom : ℕ

def searchBoundsFor (imageHeight : ℕ) (predicted : ℚ × ℚ) : SearchBounds :=
  let hm1 : ℤ := (imageHeight : ℤ) - 1
  let idxnearest0 := cppClamp 0 hm1 (rtrunc (predicted.2 + 1/2 - minSearchRadius))
  let idxnearest1 := cppClamp 0 hm1 (rtrunc (predicted.2 + 1/2 + minSearchRadius))
  let idxnear0 := cppClamp 0 hm1 (rtrunc (predicted.2 + 1/2 - searchRadius))
  let idxnear1 := cppClamp 0 hm1 (rtrunc (predicted.2 + 1/2 + searchRadius))
  { boundLeftNearest := rtrunc (predicted.1 - minSearchRadius)
    boundRightNearest := rtrunc (predicted.1 + minSearchRadius)
    boundLeftNear := rtrunc (predicted.1 - searchRadius)
    boundRightNear := rtrunc (predicted.1 + searchRadius)
    nearestTop := (min idxnearest0 hm1).toNat
    nearestBottom := (min (idxnearest1 + 1) hm1).toNat
    nearTop := (min idxnear0 hm1).toNat
    nearBottom := (min (idxnear1 + 1) hm1).toNat }

/-- The full two-pass search for one previous keypoint (lines 355-413): scan
the small window; only if nothing cleared the threshold there, scan the large
window, skipping corners already processed. -/
def matchOneKeypoint (sorted : List KeypointAndIndex) (lut : List ℕ)
    (imageHeight : ℕ) (currentDescriptors : List (List ℕ))
    (previousDescriptor : List ℕ) (predicted : ℚ × ℚ) : SearchState :=
  let b := searchBoundsFor imageHeight predicted
  let smallSlice := lutSlice sorted lut b.nearestTop b.nearestBottom
  let largeSlice := lutSlice sorted lut b.nearTop b.nearBottom
  let init : SearchState := ⟨false, 512 - kMatchingThresholdBits, none, []⟩
  let s1 := smallSlice.foldl
    (searchStep currentDescriptors previousDescriptor false
      b.boundLeftNearest b.boundRightNearest) init
  if s1.found then s1
  else largeSlice.foldl
    (searchStep currentDescriptors previousDescriptor true
      b.boundLeftNear b.boundRightNear) s1

/-- Prediction of a previous keypoint in the current frame (lines 267-282):
back-project, rotate by `C_current_prev`, re-project. The projection status
is ignored, exactly as in the source (the return value of `project3` is not
inspected). -/
def predictKeypoint (cam : Camera) (C_current_prev : Mat3) (p : ℚ × ℚ) : ℚ × ℚ :=
  (cam.project3 (C_current_prev.mulVec (cam.backProject3 p))).2

/-- `GyroTracker::matchFeatures`: emit `(i, best_index)` for every previous
keypoint whose two-pass search found a descriptor closer than the matching
threshold. -/
def matchFeatures (cam : Camera) (C_current_prev : Mat3)
    (currentFrame previousFrame : VisualFrame) : List (ℕ × ℕ) :=
  let sorted := sortKeypointsByY currentFrame.keypoints
  let lut := cornerRowLUT sorted cam.imageHeight
  (List.range previousFrame.keypoints.length).filterMap fun i =>
    let predicted := predictKeypoint cam C_current_prev
      (previousFrame.keypoints.getD i (0, 0))
    let s := matchOneKeypoint sorted lut cam.imageHeight currentFrame.descriptors
      (previousFrame.descriptors.getD i []) predicted
    if s.found then s.itBest.map (fun c => (i, c.index)) else none

/-! Specification-side selection used to state the two-tier claim. -/

/-- The corners of a window: a sorted-range slice filtered by the x-bounds. -/
def xWindowFilter (boundLeft boundRight : ℤ) (l : List KeypointAndIndex) :
    List KeypointAndIndex :=
  l.filter fun c =>
    decide (¬(c.measurement.1 < (boundLeft : ℚ) ∨ (boundRight : ℚ) < c.measurement.1))

/-- The matching score of a window corner (depends only on its index). -/
def candScore (currentDescriptors : List (List ℕ)) (previousDescriptor : List ℕ)
    (c : KeypointAndIndex) : ℤ :=
  descriptorScore previousDescriptor (currentDescriptors.getD c.index [])

/-- Best score attained over a window, floored at the match threshold. -/
def bestWindowScore (currentDescriptors : List (List ℕ))
    (previousDescriptor : List ℕ) (l : List KeypointAndIndex) : ℤ :=
  l.foldl (fun m c => max m (candScore currentDescriptors previousDescriptor c))
    (512 - kMatchingThresholdBits)

/-- The specification phrase "the emitted j maximizes that score over the
window, first wins on ties": the first window corner attaining the maximal
score, provided that score clears the threshold. -/
def firstBestCandidate (currentDescriptors : List (List ℕ))
    (previousDescriptor : List ℕ) (l : List KeypointAndIndex) :
    Option KeypointAndIndex :=
  if 512 - kMatchingThresholdBits < bestWindowScore currentDescriptors previousDescriptor l then
    l.find? fun c =>
      decide (candScore currentDescriptors previousDescriptor c
        = bestWindowScore currentDescriptors previousDescriptor l)
  else none

/-- The claim's two-tier selection: the best of the small window if the small
pass found a match, otherwise the best of the large window. -/
def twoTierSelect (currentDescriptors : List (List ℕ)) (previousDescriptor : List ℕ)
    (smallWindow largeWindow : List KeypointAndIndex) : Option KeypointAndIndex :=
  match firstBestCandidate currentDescriptors previousDescriptor smallWindow with
  | some c => some c
  | none => firstBestCandidate currentDescriptors previousDescriptor largeWindow

/-- The small window of previous keypoint prediction `predicted`. -/
def smallWindowOf (sorted : List KeypointAndIndex) (lut : List ℕ)
    (imageHeight : ℕ) (predicted : ℚ × ℚ) : List KeypointAndIndex :=
  let b := searchBoundsFor imageHeight predicted
  xWindowFilter b.boundLeftNearest b.boundRightNearest
    (lutSlice sorted lut b.nearestTop b.nearestBottom)

/-- The large window of previous keypoint prediction `predicted`. -/
def largeWindowOf (sorted : List KeypointAndIndex) (lut : List ℕ)
    (imageHeight : ℕ) (predicted : ℚ × ℚ) : List KeypointAndIndex :=
  let b := searchBoundsFor imageHeight predicted
  xWindowFilter b.boundLeftNear b.boundRightNear
    (lutSlice sorted lut b.nearTop b.nearBottom)

/-- The fatal checks executed inside the search loops of `matchFeatures`
(`CHECK_LT(distance, bytes*8)` at line 297 and the two
`CHECK_LT(norm, radius*2)` at lines 379 and 405), as a predicate over every
corner of every searched window (a superset of the pairs the source actually
checks, so this predicate holding implies every source check passes; the
norm comparison is stated on squares, which is equivalent for nonnegative
radii). -/
abbrev matchSearchChecksOk (cam : Camera) (C_current_prev : Mat3)
    (currentFrame previousFrame : VisualFrame) : Prop :=
  ∀ i < previousFrame.keypoints.length,
    let sorted := sortKeypointsByY currentFrame.keypoints
    let lut := cornerRowLUT sorted cam.imageHeight
    let predicted := predictKeypoint cam C_current_prev
      (previousFrame.keypoints.getD i (0, 0))
    ∀ c ∈ largeWindowOf sorted lut cam.imageHeight predicted,
      hammingDistanceCheck currentFrame.descriptorSizeBytes
        (previousFrame.descriptors.getD i []) (currentFrame.descriptors.getD c.index []) ∧
      (predicted.1 - c.measurement.1) ^ 2 + (predicted.2 - c.measurement.2) ^ 2
        < (2 * searchRadius) ^ 2

/-! ## Tracker state and configuration (feature-tracker-gyro.h is not in the
source tree; the five constants below are configuration per the spec, left
as parameters) -/

structure GyroTrackerConfig where
  kNumberOfTrackingBuckets : ℕ
  kNumberOfKeyPointsUseUnconditional : ℕ
  kNumberOfKeyPointsUseStrong : ℕ
  kKeypointScoreThresholdUnconditional : ℚ
  kKeypointScoreThresholdStrong : ℚ
deriving DecidableEq

/-- The mutable members of `GyroTracker` relevant to `addFrame`:
`previous_frame_ptr_`, `previous_track_lengths_`, `current_track_id_`. -/
structure GyroTrackerState where
  previousFramePtr : Option VisualFrame
  previousTrackLengths : List ℕ
  currentTrackId : ℤ
deriving DecidableEq

/-! ## Bucketed admission (addFrame, lines 60-180) -/

/-- The `compute_bin_index` lambda (lines 69-80): bucket widths are the image
dimensions divided by the bucket count (float arithmetic, exact here), the
bin is `floor(y/width_y) * B + floor(x/width_x)` with `static_cast<int>`
applied to the floored values. -/
def computeBinIndex (cfg : GyroTrackerConfig) (cam : Camera) (kp : ℚ × ℚ) : ℤ :=
  let bucketWidthX : ℚ := (cam.imageWidth : ℚ) / (cfg.kNumberOfTrackingBuckets : ℚ)
  let bucketWidthY : ℚ := (cam.imageHeight : ℚ) / (cfg.kNumberOfTrackingBuckets : ℚ)
  ratFloor (kp.2 / bucketWidthY) * (cfg.kNumberOfTrackingBuckets : ℤ)
    + ratFloor (kp.1 / bucketWidthX)

/-- The two fatal assertions of `compute_bin_index`
(`CHECK_GE(bin_index, 0)` and `CHECK_LT(bin_index, buckets.size())`). -/
abbrev binIndexCheckOk (cfg : GyroTrackerConfig) (cam : Camera) (kp : ℚ × ℚ) : Prop :=
  0 ≤ computeBinIndex cfg cam kp ∧
    computeBinIndex cfg cam kp
      < (cfg.kNumberOfTrackingBuckets : ℤ) * (cfg.kNumberOfTrackingBuckets : ℤ)

/-- Bucket occupancies. The source keeps `vector<vector<int>>` and only ever
pushes placeholder zeros and reads `.size()`, so occupancy counts suffice;
they are kept as a total function on the bin index. -/
def bumpBucket (buckets : ℤ → ℕ) (b : ℤ) : ℤ → ℕ :=
  fun i => if i = b then buckets i + 1 else buckets i

/-- The working state threaded through the admission stages: the fresh
current-frame track-id vector, the fresh length vector, the bucket
occupancies, and `candidates_new_tracks` (the accepted-match list). -/
structure AdmissionState where
  currentTrackIds : List ℤ
  currentTrackLengths : List ℕ
  buckets : ℤ → ℕ
  candidatesNewTracks : List (ℕ × ℕ)

/-- Stage 1 body (lines 88-106): write the previous id and `previous
length + 1` at the matched current index; if the id is non-negative the match
is a continued track: bump its bucket and append it to the accepted list. -/
def stage1Step (cfg : GyroTrackerConfig) (cam : Camera)
    (previousTrackIds : List ℤ) (previousTrackLengths : List ℕ)
    (currentFrame : VisualFrame) (s : AdmissionState) (m : ℕ × ℕ) : AdmissionState :=
  let newId := previousTrackIds.getD m.1 (-1)
  let ids := s.currentTrackIds.set m.2 newId
  let lens := s.currentTrackLengths.set m.2 (previousTrackLengths.getD m.1 0 + 1)
  if 0 ≤ newId then
    let b := computeBinIndex cfg cam (currentFrame.keypoints.getD m.2 (0, 0))
    { currentTrackIds := ids, currentTrackLengths := lens,
      buckets := bumpBucket s.buckets b,
      candidatesNewTracks := s.candidatesNewTracks ++ [m] }
  else
    { s with currentTrackIds := ids, currentTrackLengths := lens }

def stage1 (cfg : GyroTrackerConfig) (cam : Camera)
    (previousTrackIds : List ℤ) (previousTrackLengths : List ℕ)
    (currentFrame : VisualFrame) (matchList : List (ℕ × ℕ))
    (s : AdmissionState) : AdmissionState :=
  matchList.foldl (stage1Step cfg cam previousTrackIds previousTrackLengths currentFrame) s

/-- Stage 2 collection (lines 110-121): the indices (into the match list) of
matchList whose current keypoint is still untracked after stage 1, paired with
the current keypoint's score. -/
def collectCandidates (currentFrame : VisualFrame) (idsAfterStage1 : List ℤ)
    (matchList : List (ℕ × ℕ)) : List (ℕ × ℚ) :=
  (List.range matchList.length).filterMap fun i =>
    let m := matchList.getD i (0, 0)
    if idsAfterStage1.getD m.2 0 < 0 then
      some (i, currentFrame.scores.getD m.2 0)
    else none

/-- Stage 2 sort (lines 123-126): ascending by score (`std::sort` with
`lhs.second < rhs.second`; the embedding fixes the tie order stably). -/
def sortCandidates (cands : List (ℕ × ℚ)) : List (ℕ × ℚ) :=
  cands.insertionSort (fun a b => a.2 ≤ b.2)

/-- Stage 3 body (lines 128-150): for a candidate, reject below the
unconditional score floor, otherwise admit regardless of bucket occupancy. -/
def stage3Step (cfg : GyroTrackerConfig) (cam : Camera)
    (currentFrame : VisualFrame) (matchList : List (ℕ × ℕ))
    (s : AdmissionState) (cand : ℕ × ℚ) : AdmissionState :=
  let m := matchList.getD cand.1 (0, 0)
  let keypointScore := currentFrame.scores.getD m.2 0
  if keypointScore < cfg.kKeypointScoreThresholdUnconditional then s
  else
    let b := computeBinIndex cfg cam (currentFrame.keypoints.getD m.2 (0, 0))
    { s with buckets := bumpBucket s.buckets b,
             candidatesNewTracks := s.candidatesNewTracks ++ [m] }

/-- Stage 3 (lines 129-150): examine the first
`min(kNumberOfKeyPointsUseUnconditional, #candidates)` sorted candidates. -/
def stage3 (cfg : GyroTrackerConfig) (cam : Camera)
    (currentFrame : VisualFrame) (matchList : List (ℕ × ℕ))
    (cands : List (ℕ × ℚ)) (s : AdmissionState) : AdmissionState :=
  (cands.take cfg.kNumberOfKeyPointsUseUnconditional).foldl
    (stage3Step cfg cam currentFrame matchList) s

/-- `num_pts_per_bucket = kNumberOfKeyPointsUseStrong / buckets.size()`
(integer division, line 154). -/
def numPtsPerBucket (cfg : GyroTrackerConfig) : ℕ :=
  cfg.kNumberOfKeyPointsUseStrong
    / (cfg.kNumberOfTrackingBuckets * cfg.kNumberOfTrackingBuckets)

/-- Stage 4 body (lines 155-180): reject below the strong score floor,
otherwise admit exactly when the bucket occupancy is strictly below the
per-bucket cap. -/
def stage4Step (cfg : GyroTrackerConfig) (cam : Camera)
    (currentFrame : VisualFrame) (matchList : List (ℕ × ℕ))
    (s : AdmissionState) (cand : ℕ × ℚ) : AdmissionState :=
  let m := matchList.getD cand.1 (0, 0)
  let keypointScore := currentFrame.scores.getD m.2 0
  if keypointScore < cfg.kKeypointScoreThresholdStrong then s
  else
    let b := computeBinIndex cfg cam (currentFrame.keypoints.getD m.2 (0, 0))
    if s.buckets b < numPtsPerBucket cfg then
      { s with buckets := bumpBucket s.buckets b,
               candidatesNewTracks := s.candidatesNewTracks ++ [m] }
    else s

/-- The candidates examined by stage 4: sorted positions from
`min(kNumberOfKeyPointsUseUnconditional, #candidates)` (where stage 3 left
the loop counter) up to `min(kNumberOfKeyPointsUseStrong, #candidates)`. -/
def stage4List (cfg : GyroTrackerConfig) (cands : List (ℕ × ℚ)) : List (ℕ × ℚ) :=
  (cands.take cfg.kNumberOfKeyPointsUseStrong).drop
    (min cfg.kNumberOfKeyPointsUseUnconditional cands.length)

def stage4 (cfg : GyroTrackerConfig) (cam : Camera)
    (currentFrame : VisualFrame) (matchList : List (ℕ × ℕ))
    (cands : List (ℕ × ℚ)) (s : AdmissionState) : AdmissionState :=
  (stage4List cfg cands).foldl (stage4Step cfg cam currentFrame matchList) s

/-! ## Track-ID ledger (addFrame, lines 182-204) -/

/-- The tracker and frame state visible at the moment a fatal `CHECK` aborts
`addFrame`: the previous frame's track-id channel (mutated in place by the
ledger loop), the not-yet-swapped scratch current ids and lengths, and the
id counter. -/
structure AbortState where
  previousTrackIds : List ℤ
  currentTrackIds : List ℤ
  currentTrackLengths : List ℕ
  currentTrackId : ℤ
deriving DecidableEq

/-- Which fatal check fired. -/
inductive AddFrameAbort where
  /-- one of the entry contract checks of `addFrame` (lines 46-51) or the
  descriptor-width check of `matchFeatures` (line 286) -/
  | contractCheck (s : AbortState)
  /-- `CHECK_LT(index_previous_frame, num_keypoints_in_previous_frame)`
  (line 191) -/
  | indexCheck (s : AbortState)
  /-- `CHECK_EQ(previous_track_id, -1)` (line 193): a supposedly new track
  whose previous-frame id is not `-1` -/
  | newTrackPrevIdCheck (s : AbortState)
deriving DecidableEq

/-- The ledger loop (lines 187-204): for every accepted match whose current
id is still `-1`, check that the previous id is `-1`, allocate
`++current_track_id_`, write it into both channels and set the length to 2. -/
def ledgerLoop : List (ℕ × ℕ) → List ℤ → List ℤ → List ℕ → ℤ →
    Except AddFrameAbort (List ℤ × List ℤ × List ℕ × ℤ)
  | [], previousTrackIds, currentTrackIds, lens, nid =>
    .ok (previousTrackIds, currentTrackIds, lens, nid)
  | m :: rest, previousTrackIds, currentTrackIds, lens, nid =>
    if currentTrackIds.getD m.2 0 = -1 then
      if previousTrackIds.length ≤ m.1 then
        .error (.indexCheck ⟨previousTrackIds, currentTrackIds, lens, nid⟩)
      else if previousTrackIds.getD m.1 0 = -1 then
        let newTrackId := nid + 1
        ledgerLoop rest (previousTrackIds.set m.1 newTrackId)
          (currentTrackIds.set m.2 newTrackId) (lens.set m.2 2) newTrackId
      else
        .error (.newTrackPrevIdCheck ⟨previousTrackIds, currentTrackIds, lens, nid⟩)
    else ledgerLoop rest previousTrackIds currentTrackIds lens nid

/-! ## addFrame (lines 20-218) -/

/-- The observable outcome of a successful `addFrame` call: the track-id
vector swapped into the current frame, the previous frame's channel after the
in-place new-track writes, and the rolled tracker state. -/
structure AddFrameSuccess where
  currentTrackIds : List ℤ
  previousTrackIds : List ℤ
  newState : GyroTrackerState
deriving DecidableEq

/-- `std::vector::resize(n, 0)`: keep the first `n` entries, pad with 0. -/
def resizeFill (l : List ℕ) (n : ℕ) : List ℕ :=
  l.take n ++ List.replicate (n - l.length) 0

/-- The entry contract checks of the non-initializing path (lines 46-51
together with the descriptor-width check of `matchFeatures`, line 286):
monotonic timestamps, rectangular descriptor channel of the configured
width, co-indexed keypoint and descriptor channels. -/
def addFrameEntryChecks (currentFrame previousFrame : VisualFrame) : Bool :=
  decide (previousFrame.hardwareTimestamp < currentFrame.hardwareTimestamp) &&
  currentFrame.descriptors.all (fun d => d.length = currentFrame.descriptorSizeBytes) &&
  decide (currentFrame.keypoints.length = currentFrame.descriptors.length) &&
  decide (currentFrame.descriptorSizeBytes * 8 < 512)

/-- `GyroTracker::addFrame`. The initializing path (first frame, or a current
frame without keypoints) resets the ids of the current frame and rolls the
state. The tracking path matchList, admits in four stages, runs the ledger and
rolls the state. The fatal checks whose abort point can be observed through
mutated state are modelled with `Except` (the remaining in-loop checks of the
matcher and of `compute_bin_index` fire, if ever, before any ledger-visible
state is written; they are modelled by the separate predicates
`matchSearchChecksOk` and `binIndexCheckOk`). -/
def addFrame (cfg : GyroTrackerConfig) (cam : Camera) (st : GyroTrackerState)
    (currentFrame : VisualFrame) (C_current_prev : Mat3) :
    Except AddFrameAbort AddFrameSuccess :=
  match st.previousFramePtr with
  | none =>
    let n := currentFrame.keypoints.length
    .ok { currentTrackIds := List.replicate n (-1)
          previousTrackIds := []
          newState := { previousFramePtr :=
                          some { currentFrame with trackIds := List.replicate n (-1) }
                        previousTrackLengths := resizeFill st.previousTrackLengths n
                        currentTrackId := st.currentTrackId } }
  | some previousFrame =>
    if currentFrame.keypoints.length = 0 then
      .ok { currentTrackIds := []
            previousTrackIds := previousFrame.trackIds
            newState := { previousFramePtr := some { currentFrame with trackIds := [] }
                          previousTrackLengths := resizeFill st.previousTrackLengths 0
                          currentTrackId := st.currentTrackId } }
    else if ¬ addFrameEntryChecks currentFrame previousFrame then
      .error (.contractCheck
        ⟨previousFrame.trackIds, [], [], st.currentTrackId⟩)
    else
      let matchList := matchFeatures cam C_current_prev currentFrame previousFrame
      let n := currentFrame.keypoints.length
      let s0 : AdmissionState :=
        { currentTrackIds := List.replicate n (-1)
          currentTrackLengths := List.replicate n 0
          buckets := fun _ => 0
          candidatesNewTracks := [] }
      let s1 := stage1 cfg cam previousFrame.trackIds st.previousTrackLengths
        currentFrame matchList s0
      let cands := sortCandidates (collectCandidates currentFrame s1.currentTrackIds matchList)
      let s3 := stage3 cfg cam currentFrame matchList cands s1
      let s4 := stage4 cfg cam currentFrame matchList cands s3
      match ledgerLoop s4.candidatesNewTracks previousFrame.trackIds
          s4.currentTrackIds s4.currentTrackLengths st.currentTrackId with
      | .error e => .error e
      | .ok (prevIds, curIds, lens, nid) =>
        .ok { currentTrackIds := curIds
              previousTrackIds := prevIds
              newState := { previousFramePtr :=
                              some { currentFrame with trackIds := curIds }
                            previousTrackLengths := lens
                            currentTrackId := nid } }

/-! ## Linear triangulation (triangulation.h, lines 15-176) -/

/-- `TriangulationResult::Status`. -/
inductive TriangulationStatus where
  | SUCCESSFUL
  | TOO_FEW_MEASUREMENTS
  | UNOBSERVABLE
  | UNINITIALIZED
deriving DecidableEq

/-- A rigid-body pose (`aslam::Transformation`): rotation and translation. -/
structure Transformation where
  rotation : Mat3
  position : Vec3
deriving DecidableEq

/-- Apply a pose to a point: `T * p = R p + t`. -/
def Transformation.apply (T : Transformation) (p : Vec3) : Vec3 :=
  (T.rotation.mulVec p).add T.position

def defaultTransformation : Transformation := ⟨Mat3.identity, ⟨0, 0, 0⟩⟩

/-- Entry `(r, c)` of the assembled `3n × (3+n)` matrix `A`: identity blocks
in the first three columns, the per-measurement column vector in column
`3 + i` of block row `i`, zero elsewhere. -/
def systemMatrixEntry (colVecs : List Vec3) (r c : ℕ) : ℚ :=
  let i := r / 3
  let k := r % 3
  if c < 3 then (if c = k then 1 else 0)
  else if c = 3 + i then (colVecs.getD i ⟨0, 0, 0⟩).component k
  else 0

/-- Entry `r` of the assembled right-hand side `b`. -/
def systemVectorEntry (rhs : List Vec3) (r : ℕ) : ℚ :=
  (rhs.getD (r / 3) ⟨0, 0, 0⟩).component (r % 3)

/-- Column vectors `-R_G_B[i] * R_B_C * [u_i, v_i, 1]^T` of the single-camera
solver (line 106). -/
def singleCamColumns (measurementsNormalized : List (ℚ × ℚ))
    (T_G_B : List Transformation) (T_B_C : Transformation) : List Vec3 :=
  (List.range measurementsNormalized.length).map fun i =>
    let m := measurementsNormalized.getD i (0, 0)
    Vec3.neg
      (((T_G_B.getD i defaultTransformation).rotation.mulMat T_B_C.rotation).mulVec
        ⟨m.1, m.2, 1⟩)

/-- Right-hand-side blocks `p_G_B[i] + R_G_B[i] * p_B_C` (line 107; in the
multi-camera variant written as `T_G_B[i] * t_B_C`, line 163, which is the
same value). -/
def rhsBlocks (T_G_B : List Transformation) (t_B_C : List Vec3) : List Vec3 :=
  (List.range T_G_B.length).map fun i =>
    (T_G_B.getD i defaultTransformation).apply (t_B_C.getD i ⟨0, 0, 0⟩)

/-- Rank oracle abstracting `Eigen::ColPivHouseholderQR::rank()` with the
`kRankLossTolerance` threshold (floating-point, not re-implemented):
arguments are the matrix, its row count and its column count. -/
def RankOracle : Type := (ℕ → ℕ → ℚ) → ℕ → ℕ → ℕ

/-- Solve oracle abstracting `qr.solve(b)`: matrix, rows, columns,
right-hand side; returns the solution vector. -/
def SolveOracle : Type := (ℕ → ℕ → ℚ) → ℕ → ℕ → (ℕ → ℚ) → (ℕ → ℚ)

/-- `kRankLossTolerance = 0.001` (consumed by the rank oracle). -/
def kRankLossTolerance : ℚ := 1 / 1000

/-- `size_t` subtraction `a - b` (the source computes
`rank - measurements.size()` in `size_t`, which wraps on underflow). -/
def sizeTSub (a b : ℕ) : ℕ := (a + 2 ^ 64 - b) % 2 ^ 64

/-- `aslam::linearTriangulateFromNViews` (single camera, lines 82-120).
Returns the status together with the value of the output argument `G_point`
after the call (unchanged unless successful). -/
def linearTriangulateFromNViews (qrRank : RankOracle) (qrSolve : SolveOracle)
    (measurementsNormalized : List (ℚ × ℚ)) (T_G_B : List Transformation)
    (T_B_C : Transformation) (G_point : Vec3) : TriangulationStatus × Vec3 :=
  if measurementsNormalized.length < 2 then
    (.TOO_FEW_MEASUREMENTS, G_point)
  else
    let n := measurementsNormalized.length
    let A := systemMatrixEntry (singleCamColumns measurementsNormalized T_G_B T_B_C)
    let b := systemVectorEntry
      (rhsBlocks T_G_B (List.replicate T_G_B.length T_B_C.position))
    let rank := qrRank A (3 * n) (3 + n)
    if sizeTSub rank n < 3 then (.UNOBSERVABLE, G_point)
    else
      let sol := qrSolve A (3 * n) (3 + n) b
      (.SUCCESSFUL, ⟨sol 0, sol 1, sol 2⟩)

/-- Column vectors of the multi-camera solver (lines 161-162): the rotation
of the camera selected by `measurement_camera_indices[i]`. -/
def multiCamColumns (measurementsNormalized : List (ℚ × ℚ))
    (measurementCameraIndices : List ℕ) (T_G_B T_B_C : List Transformation) :
    List Vec3 :=
  (List.range measurementsNormalized.length).map fun i =>
    let m := measurementsNormalized.getD i (0, 0)
    let camIndex := measurementCameraIndices.getD i 0
    Vec3.neg
      (((T_G_B.getD i defaultTransformation).rotation.mulMat
          (T_B_C.getD camIndex defaultTransformation).rotation).mulVec ⟨m.1, m.2, 1⟩)

/-- The fatal `CHECK_LT(cam_index, T_B_C.size())` of the multi-camera solver
(line 155). -/
abbrev camIndicesCheckOk (measurementCameraIndices : List ℕ)
    (T_B_C : List Transformation) : Prop :=
  ∀ c ∈ measurementCameraIndices, c < T_B_C.length

/-- `aslam::linearTriangulateFromNViewsMultiCam` (lines 134-176). The source
returns a plain `bool` here, not a `TriangulationResult`; the embedding keeps
that return type, paired with the value of the output argument after the
call. -/
def linearTriangulateFromNViewsMultiCam (qrRank : RankOracle) (qrSolve : SolveOracle)
    (measurementsNormalized : List (ℚ × ℚ)) (measurementCameraIndices : List ℕ)
    (T_G_B T_B_C : List Transformation) (G_point : Vec3) : Bool × Vec3 :=
  if measurementsNormalized.length < 2 then (false, G_point)
  else
    let n := measurementsNormalized.length
    let A := systemMatrixEntry
      (multiCamColumns measurementsNormalized measurementCameraIndices T_G_B T_B_C)
    let b := systemVectorEntry
      (rhsBlocks T_G_B (measurementCameraIndices.map
        (fun c => (T_B_C.getD c defaultTransformation).position)))
    let rank := qrRank A (3 * n) (3 + n)
    if sizeTSub rank n < 3 then (false, G_point)
    else
      let sol := qrSolve A (3 * n) (3 + n) b
      (true, ⟨sol 0, sol 1, sol 2⟩)

/-! ## Concrete instances used in the closed theorems below -/

/-- A trivial camera over the plane `z = 1`: back-projection lifts the pixel,
projection drops the depth and always succeeds. -/
def planeCamera (w h : ℕ) : Camera :=
  ⟨w, h, fun p => ⟨p.1, p.2, 1⟩, fun v => (true, (v.x, v.y))⟩

/-- The same camera, but every projection reports failure (bearing outside
the valid field) while still writing the same pixel — an admissible
behaviour of the external camera contract. -/
def planeCameraFailing (w h : ℕ) : Camera :=
  ⟨w, h, fun p => ⟨p.1, p.2, 1⟩, fun v => (false, (v.x, v.y))⟩

/-- Configuration with buckets 2x2, 4 unconditional, 8 strong, both score
floors at 10. -/
def cfgA : GyroTrackerConfig := ⟨2, 4, 8, 10, 10⟩

/-- Configuration with buckets 2x2, 4 unconditional, 8 strong, score floors
at 0. -/
def cfgB : GyroTrackerConfig := ⟨2, 4, 8, 0, 0⟩

/-- Single-keypoint previous frame at pixel (4,4), untracked. -/
def prevFrameA : VisualFrame := ⟨0, [(4, 4)], [[0]], 1, [1], [-1]⟩

/-- Tracker state holding `prevFrameA`. -/
def stateA : GyroTrackerState := ⟨some prevFrameA, [0], 0⟩

/-- Current frame identical to `prevFrameA` but with keypoint score 5 (below
both score floors of `cfgA`). -/
def curFrameWeak : VisualFrame := ⟨1, [(4, 4)], [[0]], 1, [5], []⟩

/-- Current frame identical to `prevFrameA` but with keypoint score 50. -/
def curFrameStrong : VisualFrame := ⟨1, [(4, 4)], [[0]], 1, [50], []⟩

/-- Previous frame with two keypoints matching the same current keypoint:
keypoint 0 is on established track 5, keypoint 1 is untracked. -/
def prevFrameManyToOne : VisualFrame := ⟨0, [(4, 4), (5, 4)], [[0], [0]], 1, [1, 1], [5, -1]⟩

/-- Tracker state holding `prevFrameManyToOne` (track 5 has length 3). -/
def stateManyToOne : GyroTrackerState := ⟨some prevFrameManyToOne, [3, 0], 7⟩

/-- Current frame with a single keypoint both previous keypoints match. -/
def curFrameManyToOne : VisualFrame := ⟨1, [(4, 4)], [[0]], 1, [9], []⟩

/-- Previous/current frames for the projection-failure scenario. -/
def prevFrameProj : VisualFrame := ⟨0, [(3, 3)], [[0]], 1, [1], [-1]⟩

def curFrameProj : VisualFrame := ⟨1, [(3, 3)], [[0]], 1, [1], []⟩

/-- Rank oracle returning rank 0 (any oracle works for the early-return
paths exercised below). -/
def zeroRankOracle : RankOracle := fun _ _ _ => 0

def zeroSolveOracle : SolveOracle := fun _ _ _ _ _ => 0

/-- Configuration with a single bucket, no unconditional admissions, strong
cap 4 (per-bucket cap 4). -/
def cfgOneBucket : GyroTrackerConfig := ⟨1, 0, 4, 0, 0⟩

/-- Admission state before stage 4 in the single-bucket scenario. -/
def stage4InitState : AdmissionState := ⟨[-1], [0], fun _ => 0, []⟩

/-- Decidable equality on `Except`, needed to evaluate `addFrame` runs. -/
instance {α β : Type} [DecidableEq α] [DecidableEq β] : DecidableEq (Except α β) := fun a b =>
  match a, b with
  | .ok x, .ok y => decidable_of_iff (x = y) (by simp)
  | .error x, .error y => decidable_of_iff (x = y) (by simp)
  | .ok _, .error _ => isFalse (fun h => Except.noConfusion h)
  | .error _, .ok _ => isFalse (fun h => Except.noConfusion h)

/-- The successful outcome of `addFrame` on `cfgA`, `stateA`,
`curFrameStrong` (computed run, used as a witness below). -/
def strongResult : AddFrameSuccess :=
  ⟨[1], [1], ⟨some ⟨1, [(4, 4)], [[0]], 1, [50], [1]⟩, [2], 1⟩⟩

/-! # Theorems -/

/-! ### Numeric helper lemmas -/

theorem ratFloor_eq (q : ℚ) : ratFloor q = ⌊q⌋ := by
  have h := Rat.floor_intCast_div_natCast q.num q.den
  rw [Rat.num_div_den] at h
  rw [ratFloor, Int.fdiv_eq_ediv _ (by exact_mod_cast q.den_pos.le), h]

theorem rtrunc_eq_floor {q : ℚ} (h : 0 ≤ q) : rtrunc q = ⌊q⌋ := by
  have hd : (0 : ℤ) ≤ (q.den : ℤ) := by exact_mod_cast q.den_pos.le
  rw [rtrunc, Int.tdiv_eq_ediv (Rat.num_nonneg.mpr h) hd]
  have h2 := Rat.floor_intCast_div_natCast q.num q.den
  rw [Rat.num_div_den] at h2
  exact h2.symm

theorem rtrunc_eq_ceil {q : ℚ} (h : q ≤ 0) : rtrunc q = ⌈q⌉ := by
  have hd : (0 : ℤ) ≤ (q.den : ℤ) := by exact_mod_cast q.den_pos.le
  have hnum : 0 ≤ -q.num := by
    have := Rat.num_nonpos.mpr h
    omega
  have hden : (-q).den = q.den := Rat.neg_den q
  have hnumneg : (-q).num = -q.num := Rat.neg_num q
  have h1 : rtrunc q = -rtrunc (-q) := by
    rw [rtrunc, rtrunc, hden, hnumneg, Int.neg_tdiv, neg_neg]
  rw [h1, rtrunc_eq_floor (by linarith : (0:ℚ) ≤ -q), Int.floor_neg, neg_neg]

theorem rtrunc_mono {q r : ℚ} (h : q ≤ r) : rtrunc q ≤ rtrunc r := by
  by_cases hq : 0 ≤ q
  · rw [rtrunc_eq_floor hq, rtrunc_eq_floor (le_trans hq h)]
    exact Int.floor_mono h
  · push_neg at hq
    by_cases hr : 0 ≤ r
    · rw [rtrunc_eq_ceil hq.le, rtrunc_eq_floor hr]
      have h1 : (⌈q⌉ : ℤ) ≤ 0 := Int.ceil_le.mpr (by exact_mod_cast hq.le)
      exact le_trans h1 (Int.floor_nonneg.mpr hr)
    · push_neg at hr
      rw [rtrunc_eq_ceil hq.le, rtrunc_eq_ceil hr.le]
      exact Int.ceil_mono h

/-! ### C9: the bit distance kernel.

The kernel computes the popcount-of-XOR sum, but its internal assertion
`CHECK_LT(distance, descriptorSizeBytes * 8)` is violated by any pair of
bytewise-complementary descriptors, whose distance is exactly
`descriptorSizeBytes * 8`: the claimed "no error conditions" fails on a
well-formed input, with the spec clearly stating the intent (an off-by-one
in the assertion, which should be `CHECK_LE`). -/

/-- C9, code evaluation at the failing input: descriptor width 1 (so
`D*8 < 512` holds), descriptors `[0x00]` and `[0xFF]` (bytewise
complements). The kernel value is `8 * D` as the claim demands, hence the
fatal assertion `distance < D * 8` is false and the kernel aborts. -/
theorem hammingDistance512_complement_aborts :
    (1 : ℕ) * 8 < 512 ∧
    byteComplement [0] = [255] ∧
    hammingDistance512 [0] [255] = 8 * 1 ∧
    ¬ hammingDistanceCheck 1 [0] [255] := by decide

/-! ### C10: bucket index computation. -/

/-- C10, amended, part that holds: for a keypoint inside the image and a
positive bucket grid, the computed bin index lies in `[0, B*B)` and both
internal range assertions of `compute_bin_index` hold. -/
theorem computeBinIndex_in_range_amended (cfg : GyroTrackerConfig) (cam : Camera)
    (kp : ℚ × ℚ) (hB : 0 < cfg.kNumberOfTrackingBuckets)
    (hW : 0 < cam.imageWidth) (hH : 0 < cam.imageHeight)
    (hx0 : 0 ≤ kp.1) (hx : kp.1 < (cam.imageWidth : ℚ))
    (hy0 : 0 ≤ kp.2) (hy : kp.2 < (cam.imageHeight : ℚ)) :
    binIndexCheckOk cfg cam kp := by
  have hBq : (0 : ℚ) < (cfg.kNumberOfTrackingBuckets : ℚ) := by exact_mod_cast hB
  have hWq : (0 : ℚ) < (cam.imageWidth : ℚ) := by exact_mod_cast hW
  have hHq : (0 : ℚ) < (cam.imageHeight : ℚ) := by exact_mod_cast hH
  have hwx : (0 : ℚ) < (cam.imageWidth : ℚ) / (cfg.kNumberOfTrackingBuckets : ℚ) :=
    div_pos hWq hBq
  have hwy : (0 : ℚ) < (cam.imageHeight : ℚ) / (cfg.kNumberOfTrackingBuckets : ℚ) :=
    div_pos hHq hBq
  have hx1 : kp.1 / ((cam.imageWidth : ℚ) / (cfg.kNumberOfTrackingBuckets : ℚ))
      < (cfg.kNumberOfTrackingBuckets : ℚ) := by
    rw [div_lt_iff₀ hwx]
    calc kp.1 < (cam.imageWidth : ℚ) := hx
    _ = (cfg.kNumberOfTrackingBuckets : ℚ)
        * ((cam.imageWidth : ℚ) / (cfg.kNumberOfTrackingBuckets : ℚ)) := by
      field_simp
  have hy1 : kp.2 / ((cam.imageHeight : ℚ) / (cfg.kNumberOfTrackingBuckets : ℚ))
      < (cfg.kNumberOfTrackingBuckets : ℚ) := by
    rw [div_lt_iff₀ hwy]
    calc kp.2 < (cam.imageHeight : ℚ) := hy
    _ = (cfg.kNumberOfTrackingBuckets : ℚ)
        * ((cam.imageHeight : ℚ) / (cfg.kNumberOfTrackingBuckets : ℚ)) := by
      field_simp
  have hfx0 : 0 ≤ ⌊kp.1 / ((cam.imageWidth : ℚ) / (cfg.kNumberOfTrackingBuckets : ℚ))⌋ :=
    Int.floor_nonneg.mpr (div_nonneg hx0 hwx.le)
  have hfy0 : 0 ≤ ⌊kp.2 / ((cam.imageHeight : ℚ) / (cfg.kNumberOfTrackingBuckets : ℚ))⌋ :=
    Int.floor_nonneg.mpr (div_nonneg hy0 hwy.le)
  have hfx1 : ⌊kp.1 / ((cam.imageWidth : ℚ) / (cfg.kNumberOfTrackingBuckets : ℚ))⌋
      < (cfg.kNumberOfTrackingBuckets : ℤ) := Int.floor_lt.mpr (by exact_mod_cast hx1)
  have hfy1 : ⌊kp.2 / ((cam.imageHeight : ℚ) / (cfg.kNumberOfTrackingBuckets : ℚ))⌋
      < (cfg.kNumberOfTrackingBuckets : ℤ) := Int.floor_lt.mpr (by exact_mod_cast hy1)
  have hBz : (0 : ℤ) < (cfg.kNumberOfTrackingBuckets : ℤ) := by exact_mod_cast hB
  constructor
  · rw [computeBinIndex, ratFloor_eq, ratFloor_eq]
    positivity
  · rw [computeBinIndex, ratFloor_eq, ratFloor_eq]
    nlinarith [hfx0, hfy0, hfx1, hfy1, hBz]

/-- Witness for C10's amended theorem at a concrete in-range keypoint. -/
theorem computeBinIndex_in_range_amended_witness :
    (0 < cfgB.kNumberOfTrackingBuckets ∧ 0 < (planeCamera 16 16).imageWidth ∧
     0 < (planeCamera 16 16).imageHeight ∧
     (0 : ℚ) ≤ (4 : ℚ) ∧ (4 : ℚ) < ((planeCamera 16 16).imageWidth : ℚ) ∧
     (0 : ℚ) ≤ (4 : ℚ) ∧ (4 : ℚ) < ((planeCamera 16 16).imageHeight : ℚ)) ∧
    binIndexCheckOk cfgB (planeCamera 16 16) (4, 4) :=
  ⟨⟨by decide, by decide, by decide, by decide, by decide, by decide, by decide⟩,
   computeBinIndex_in_range_amended cfgB (planeCamera 16 16) (4, 4)
     (by decide) (by decide) (by decide) (by decide) (by decide) (by decide) (by decide)⟩

/-- Configuration with 4x4 buckets used in the out-of-range counterexample. -/
theorem computeBinIndex_out_of_range_cex :
    ((planeCamera 40 40).imageWidth : ℚ) ≤ (40 : ℚ) ∧
    computeBinIndex ⟨4, 8, 16, 0, 0⟩ (planeCamera 40 40) (40, 0) = 4 ∧
    binIndexCheckOk ⟨4, 8, 16, 0, 0⟩ (planeCamera 40 40) (40, 0) := by decide

/-! ### C8: triangulation status reporting.

The single-camera solver reports its outcome as a `TriangulationResult`
status tag and leaves the output point untouched on every non-success path.
The multi-camera solver, however, returns a plain `bool` — not a tag of the
four-value status set — so the claim fails for it; `false` conflates
`TOO_FEW_MEASUREMENTS` and `UNOBSERVABLE`. -/

/-- C8 counterexample: on a one-measurement input the multi-camera solver
produces the boolean `false` (with the point untouched), and `Bool` is not
the four-value status type, so no status tag is surfaced. -/
theorem triangulation_multicam_bool_cex :
    linearTriangulateFromNViewsMultiCam zeroRankOracle zeroSolveOracle
      [(0, 0)] [0] [defaultTransformation] [defaultTransformation] ⟨1, 2, 3⟩
      = (false, ⟨1, 2, 3⟩) ∧ Bool ≠ TriangulationStatus := by
  refine ⟨by decide, ?_⟩
  intro h
  have inj := (Equiv.cast h.symm).injective
  cases hS : Equiv.cast h.symm TriangulationStatus.SUCCESSFUL <;>
    cases hT : Equiv.cast h.symm TriangulationStatus.TOO_FEW_MEASUREMENTS <;>
    cases hU : Equiv.cast h.symm TriangulationStatus.UNOBSERVABLE <;>
    first
    | exact TriangulationStatus.noConfusion (inj (hS.trans hT.symm))
    | exact TriangulationStatus.noConfusion (inj (hS.trans hU.symm))
    | exact TriangulationStatus.noConfusion (inj (hT.trans hU.symm))

/-- C8, amended: fewer than 2 measurements yields `TOO_FEW_MEASUREMENTS`
from the single-camera solver but the boolean `false` from the multi-camera
solver; on every non-success outcome of either solver the output point
argument is left unmodified. Holds for every rank/solve oracle. -/
theorem triangulation_nonsuccess_amended (qrRank : RankOracle) (qrSolve : SolveOracle)
    (meas : List (ℚ × ℚ)) (camIdx : List ℕ) (T_G_B T_B_C : List Transformation)
    (T : Transformation) (p : Vec3) :
    (meas.length < 2 →
      linearTriangulateFromNViews qrRank qrSolve meas T_G_B T p
        = (.TOO_FEW_MEASUREMENTS, p) ∧
      linearTriangulateFromNViewsMultiCam qrRank qrSolve meas camIdx T_G_B T_B_C p
        = (false, p)) ∧
    ((linearTriangulateFromNViews qrRank qrSolve meas T_G_B T p).1
        ≠ TriangulationStatus.SUCCESSFUL →
      (linearTriangulateFromNViews qrRank qrSolve meas T_G_B T p).2 = p) ∧
    ((linearTriangulateFromNViewsMultiCam qrRank qrSolve meas camIdx T_G_B T_B_C p).1
        = false →
      (linearTriangulateFromNViewsMultiCam qrRank qrSolve meas camIdx T_G_B T_B_C p).2 = p) := by
  refine ⟨fun h2 => ?_, fun hns => ?_, fun hns => ?_⟩
  · rw [linearTriangulateFromNViews, linearTriangulateFromNViewsMultiCam, if_pos h2, if_pos h2]
    exact ⟨rfl, rfl⟩
  · rw [linearTriangulateFromNViews] at hns ⊢
    by_cases h1 : meas.length < 2
    · rw [if_pos h1]
    · rw [if_neg h1] at hns ⊢
      dsimp only at hns ⊢
      by_cases h2 : sizeTSub
          (qrRank (systemMatrixEntry (singleCamColumns meas T_G_B T))
            (3 * meas.length) (3 + meas.length)) meas.length < 3
      · rw [if_pos h2]
      · rw [if_neg h2] at hns
        exact absurd rfl hns
  · rw [linearTriangulateFromNViewsMultiCam] at hns ⊢
    by_cases h1 : meas.length < 2
    · rw [if_pos h1]
    · rw [if_neg h1] at hns ⊢
      dsimp only at hns ⊢
      by_cases h2 : sizeTSub
          (qrRank (systemMatrixEntry (multiCamColumns meas camIdx T_G_B T_B_C))
            (3 * meas.length) (3 + meas.length)) meas.length < 3
      · rw [if_pos h2]
      · rw [if_neg h2] at hns
        exact Bool.noConfusion hns

/-- Witness for C8's amended theorem: a one-measurement input. -/
theorem triangulation_nonsuccess_amended_witness :
    ([((0 : ℚ), (0 : ℚ))].length < 2) ∧
    (linearTriangulateFromNViews zeroRankOracle zeroSolveOracle
      [(0, 0)] [defaultTransformation] defaultTransformation ⟨1, 2, 3⟩
      = (.TOO_FEW_MEASUREMENTS, ⟨1, 2, 3⟩) ∧
    linearTriangulateFromNViewsMultiCam zeroRankOracle zeroSolveOracle
      [(0, 0)] [0] [defaultTransformation] [defaultTransformation] ⟨1, 2, 3⟩
      = (false, ⟨1, 2, 3⟩)) :=
  ⟨by decide,
   (triangulation_nonsuccess_amended zeroRankOracle zeroSolveOracle
     [(0, 0)] [0] [defaultTransformation] [defaultTransformation]
     defaultTransformation ⟨1, 2, 3⟩).1 (by decide)⟩

/-! ### Row LUT lemmas -/

theorem takeWhile_length_le_of_imp (l : List KeypointAndIndex)
    (p q : KeypointAndIndex → Bool) (hpq : ∀ e, p e = true → q e = true) :
    (l.takeWhile p).length ≤ (l.takeWhile q).length := by
  induction l with
  | nil => simp
  | cons a t ih =>
    by_cases hp : p a
    · rw [List.takeWhile_cons_of_pos hp, List.takeWhile_cons_of_pos (hpq a hp)]
      simpa using ih
    · rw [List.takeWhile_cons_of_neg hp]
      exact Nat.zero_le _

theorem advance_takeWhile (p : KeypointAndIndex → Bool) :
    ∀ (v : ℕ) (l : List KeypointAndIndex), v ≤ (l.takeWhile p).length →
      v + ((l.drop v).takeWhile p).length = (l.takeWhile p).length := by
  intro v
  induction v with
  | zero => intro l _; simp
  | succ n ih =>
    intro l h
    match l with
    | [] => simp at h
    | a :: t =>
      by_cases hp : p a
      · rw [List.takeWhile_cons_of_pos hp] at h ⊢
        simp only [List.length_cons] at h ⊢
        rw [List.drop_succ_cons]
        have := ih t (by omega)
        omega
      · rw [List.takeWhile_cons_of_neg hp] at h
        simp at h

theorem sorted_takeWhile_countP (c : ℚ) :
    ∀ l : List KeypointAndIndex,
      l.Pairwise (fun a b => a.measurement.2 ≤ b.measurement.2) →
      (l.takeWhile (fun e => decide (e.measurement.2 < c))).length
        = l.countP (fun e => decide (e.measurement.2 < c)) := by
  intro l
  induction l with
  | nil => intro _; simp
  | cons a t ih =>
    intro hl
    rcases List.pairwise_cons.mp hl with ⟨ha, ht⟩
    by_cases h : a.measurement.2 < c
    · rw [List.takeWhile_cons_of_pos (by simpa using h),
        List.countP_cons_of_pos _ _ (by simpa using h)]
      simp [ih ht]
    · have hz : t.countP (fun e => decide (e.measurement.2 < c)) = 0 := by
        rw [List.countP_eq_zero]
        intro e he
        simp only [decide_eq_true_eq]
        intro hec
        exact h (lt_of_le_of_lt (ha e he) hec)
      rw [List.takeWhile_cons_of_neg (by simpa using h),
        List.countP_cons_of_neg _ _ (by simpa using h), hz]
      simp

theorem lutScan_length (l : List KeypointAndIndex) :
    ∀ (rows y v : ℕ), (lutScan l v y rows).length = rows := by
  intro rows
  induction rows with
  | zero => intro y v; simp [lutScan]
  | succ n ih => intro y v; simp [lutScan, ih]

theorem lutScan_eq_map (l : List KeypointAndIndex)
    (hs : l.Pairwise (fun a b => a.measurement.2 ≤ b.measurement.2)) :
    ∀ (rows y v : ℕ),
      v ≤ (l.takeWhile (fun e => decide (e.measurement.2 < (y : ℚ)))).length →
      lutScan l v y rows = (List.range rows).map
        (fun k => l.countP (fun e => decide (e.measurement.2 < ((y + k : ℕ) : ℚ)))) := by
  intro rows
  induction rows with
  | zero => intro y v _; simp [lutScan]
  | succ n ih =>
    intro y v hv
    have hw := advance_takeWhile (fun e => decide (e.measurement.2 < (y : ℚ))) v l hv
    have hwc : v + ((l.drop v).takeWhile
        (fun e => decide (e.measurement.2 < (y : ℚ)))).length
        = l.countP (fun e => decide (e.measurement.2 < (y : ℚ))) := by
      rw [hw, sorted_takeWhile_countP _ _ hs]
    have hmono : (l.takeWhile (fun e => decide (e.measurement.2 < (y : ℚ)))).length
        ≤ (l.takeWhile (fun e => decide (e.measurement.2 < ((y + 1 : ℕ) : ℚ)))).length := by
      refine takeWhile_length_le_of_imp l _ _ (fun e he => ?_)
      simp only [decide_eq_true_eq] at he ⊢
      have hq : ((y : ℚ)) ≤ ((y + 1 : ℕ) : ℚ) := by push_cast; linarith
      linarith
    simp only [lutScan]
    rw [ih (y + 1) _ (by rw [hw]; exact hmono)]
    rw [List.range_succ_eq_map, List.map_cons, List.map_map, hwc]
    simp only [Nat.add_zero]
    congr 1
    apply List.map_congr_left
    intro k _
    simp only [Function.comp_apply, Nat.succ_eq_add_one]
    rw [show y + 1 + k = y + (k + 1) from by omega]

theorem cornerRowLUT_getD (l : List KeypointAndIndex)
    (hs : l.Pairwise (fun a b => a.measurement.2 ≤ b.measurement.2))
    (imageHeight y : ℕ) (hy : y < imageHeight) :
    (cornerRowLUT l imageHeight).getD y 0
      = l.countP (fun e => decide (e.measurement.2 < (y : ℚ))) := by
  rw [cornerRowLUT, lutScan_eq_map l hs imageHeight 0 0 (Nat.zero_le _)]
  rw [List.getD_eq_getElem?_getD, List.getElem?_map, List.getElem?_range hy]
  simp

theorem mem_takeWhile_and_mem {p : KeypointAndIndex → Bool} :
    ∀ {l : List KeypointAndIndex} {e}, e ∈ l.takeWhile p → p e = true ∧ e ∈ l := by
  intro l
  induction l with
  | nil => intro e he; simp at he
  | cons a t ih =>
    intro e he
    by_cases hp : p a
    · rw [List.takeWhile_cons_of_pos hp] at he
      rcases List.mem_cons.mp he with h | h
      · exact ⟨h ▸ hp, h ▸ List.mem_cons_self a t⟩
      · exact ⟨(ih h).1, List.mem_cons_of_mem a (ih h).2⟩
    · rw [List.takeWhile_cons_of_neg hp] at he
      simp at he

theorem take_takeWhile_length (p : KeypointAndIndex → Bool) :
    ∀ l : List KeypointAndIndex, l.take (l.takeWhile p).length = l.takeWhile p := by
  intro l
  induction l with
  | nil => simp
  | cons a t ih =>
    by_cases hp : p a
    · rw [List.takeWhile_cons_of_pos hp]
      simpa using ih
    · rw [List.takeWhile_cons_of_neg hp]
      simp

theorem drop_takeWhile_length (p : KeypointAndIndex → Bool) (l : List KeypointAndIndex) :
    l.drop (l.takeWhile p).length = l.dropWhile p := by
  have h := List.takeWhile_append_dropWhile p l
  calc l.drop (l.takeWhile p).length
      = (l.takeWhile p ++ l.dropWhile p).drop (l.takeWhile p).length := by rw [h]
    _ = l.dropWhile p := List.drop_left _ _

theorem sorted_dropWhile_ge (c : ℚ) :
    ∀ l : List KeypointAndIndex,
      l.Pairwise (fun a b => a.measurement.2 ≤ b.measurement.2) →
      ∀ e ∈ l.dropWhile (fun e => decide (e.measurement.2 < c)), c ≤ e.measurement.2 := by
  intro l
  induction l with
  | nil => intro _ e he; simp at he
  | cons a t ih =>
    intro hl e he
    rcases List.pairwise_cons.mp hl with ⟨ha, ht⟩
    by_cases hp : a.measurement.2 < c
    · rw [List.dropWhile_cons_of_pos (by simpa using hp)] at he
      exact ih ht e he
    · rw [List.dropWhile_cons_of_neg (by simpa using hp)] at he
      push_neg at hp
      rcases List.mem_cons.mp he with h | h
      · exact h ▸ hp
      · exact le_trans hp (ha e h)

theorem sorted_mem_takeWhile_of_lt (c : ℚ) :
    ∀ l : List KeypointAndIndex,
      l.Pairwise (fun a b => a.measurement.2 ≤ b.measurement.2) →
      ∀ e ∈ l, e.measurement.2 < c →
        e ∈ l.takeWhile (fun e => decide (e.measurement.2 < c)) := by
  intro l
  induction l with
  | nil => intro _ e he; simp at he
  | cons a t ih =>
    intro hl e he hec
    rcases List.pairwise_cons.mp hl with ⟨ha, ht⟩
    rcases List.mem_cons.mp he with h | h
    · rw [List.takeWhile_cons_of_pos (by simp [h ▸ hec])]
      exact h ▸ List.mem_cons_self _ _
    · have hac : a.measurement.2 < c := lt_of_le_of_lt (ha e h) hec
      rw [List.takeWhile_cons_of_pos (by simpa using hac)]
      exact List.mem_cons_of_mem _ (ih ht e h hec)

theorem sorted_slice_mem (l : List KeypointAndIndex)
    (hs : l.Pairwise (fun a b => a.measurement.2 ≤ b.measurement.2))
    (c₁ c₂ : ℚ) (hcc : c₁ ≤ c₂) (e : KeypointAndIndex) :
    e ∈ (l.take (l.countP (fun e => decide (e.measurement.2 < c₂)))).drop
          (l.countP (fun e => decide (e.measurement.2 < c₁)))
      ↔ e ∈ l ∧ c₁ ≤ e.measurement.2 ∧ e.measurement.2 < c₂ := by
  have ha := (sorted_takeWhile_countP c₁ l hs).symm
  have hb := (sorted_takeWhile_countP c₂ l hs).symm
  have hab : l.countP (fun e => decide (e.measurement.2 < c₁))
      ≤ l.countP (fun e => decide (e.measurement.2 < c₂)) := by
    refine List.countP_mono_left (fun x _ hx => ?_)
    simp only [decide_eq_true_eq] at hx ⊢
    linarith
  constructor
  · intro he
    have he2 : e ∈ l.take (l.countP (fun e => decide (e.measurement.2 < c₂))) :=
      (List.drop_sublist _ _).subset he
    have he3 : e ∈ l.takeWhile (fun e => decide (e.measurement.2 < c₂)) := by
      rw [hb, take_takeWhile_length] at he2
      exact he2
    rcases mem_takeWhile_and_mem he3 with ⟨hp2, hel⟩
    refine ⟨hel, ?_, by simpa using hp2⟩
    have hdrop : e ∈ l.drop (l.countP (fun e => decide (e.measurement.2 < c₁))) := by
      have heq : (l.take (l.countP (fun e => decide (e.measurement.2 < c₂)))).drop
            (l.countP (fun e => decide (e.measurement.2 < c₁)))
          = (l.drop (l.countP (fun e => decide (e.measurement.2 < c₁)))).take
              (l.countP (fun e => decide (e.measurement.2 < c₂))
                - l.countP (fun e => decide (e.measurement.2 < c₁))) := by
        rw [List.take_drop, Nat.add_sub_cancel' hab]
      rw [heq] at he
      exact (List.take_sublist _ _).subset he
    rw [ha, drop_takeWhile_length] at hdrop
    exact sorted_dropWhile_ge c₁ l hs e hdrop
  · rintro ⟨hel, h1, h2⟩
    have htake2 : l.take (l.countP (fun e => decide (e.measurement.2 < c₂)))
        = l.takeWhile (fun e => decide (e.measurement.2 < c₂)) := by
      rw [hb]; exact take_takeWhile_length _ l
    have htake1 : l.take (l.countP (fun e => decide (e.measurement.2 < c₁)))
        = l.takeWhile (fun e => decide (e.measurement.2 < c₁)) := by
      rw [ha]; exact take_takeWhile_length _ l
    have he2 : e ∈ l.takeWhile (fun e => decide (e.measurement.2 < c₂)) :=
      sorted_mem_takeWhile_of_lt c₂ l hs e hel h2
    rw [← htake2] at he2
    have hsplit := List.take_append_drop
      (l.countP (fun e => decide (e.measurement.2 < c₁)))
      (l.take (l.countP (fun e => decide (e.measurement.2 < c₂))))
    rw [← hsplit] at he2
    rcases List.mem_append.mp he2 with h | h
    · exfalso
      rw [List.take_take, Nat.min_eq_left hab, htake1] at h
      rcases mem_takeWhile_and_mem h with ⟨hp1, _⟩
      simp only [decide_eq_true_eq] at hp1
      linarith
    · exact h

theorem sortKeypointsByY_sorted (kps : List (ℚ × ℚ)) :
    (sortKeypointsByY kps).Pairwise (fun a b => a.measurement.2 ≤ b.measurement.2) := by
  haveI : IsTotal KeypointAndIndex (fun a b => a.measurement.2 ≤ b.measurement.2) :=
    ⟨fun a b => le_total _ _⟩
  haveI : IsTrans KeypointAndIndex (fun a b => a.measurement.2 ≤ b.measurement.2) :=
    ⟨fun _ _ _ hab hbc => le_trans hab hbc⟩
  exact List.sorted_insertionSort _ _

theorem sortKeypointsByY_mem (kps : List (ℚ × ℚ)) (e : KeypointAndIndex) :
    e ∈ sortKeypointsByY kps ↔ kps[e.index]? = some e.measurement := by
  rw [sortKeypointsByY, (List.perm_insertionSort _ _).mem_iff]
  constructor
  · intro h
    rcases List.mem_map.mp h with ⟨p, hp, he⟩
    have h1 : p.2 = e.measurement := by rw [← he]
    have h2 : p.1 = e.index := by rw [← he]
    have hp2 : (e.index, e.measurement) ∈ kps.enum := by
      rw [← h1, ← h2]
      exact hp
    exact List.mk_mem_enum_iff_getElem?.mp hp2
  · intro h
    refine List.mem_map.mpr ⟨(e.index, e.measurement), List.mk_mem_enum_iff_getElem?.mpr h, rfl⟩

/-! ### C6: the row-indexed query.

The query for row interval `[y, y]` returns the sorted range
`[LUT[y], LUT[min(y+1, H-1)])`, i.e. the keypoints with y-coordinate in
`[y, y+1)` — except in the last row, where `min(y+1, H-1) = y` makes the
range empty. So the claim fails for keypoints in the last image row (never
returned) and for keypoints with fractional y-coordinate (returned by the
row query of the row below them although their coordinate differs from it). -/

/-- C6 counterexample: with image height 2, the keypoint at `y = 1` (the
last row) is not in the row-1 query result although its y-coordinate equals
1; with image height 3, the keypoint at `y = 1/2` is in the row-0 query
result although its y-coordinate differs from 0. -/
theorem rowLUT_query_cex :
    rowQuery [((0 : ℚ), (1 : ℚ))] 2 1 = [] ∧
    (((0 : ℚ), (1 : ℚ)).2 = ((1 : ℕ) : ℚ)) ∧
    rowQuery [((0 : ℚ), 1/2)] 3 0 = [⟨(0, 1/2), 0⟩] ∧
    ¬ ((0 : ℚ), (1/2 : ℚ)).2 = ((0 : ℕ) : ℚ) := by decide

/-- C6, amended: away from the last image row (`y + 2 ≤ H`) and for integer
y-coordinates, the row query for `[y, y]` returns exactly the current
keypoints whose y-coordinate equals `y`. -/
theorem rowLUT_query_exact_amended (kps : List (ℚ × ℚ)) (imageHeight y : ℕ)
    (hy : y + 2 ≤ imageHeight)
    (hint : ∀ p ∈ kps, ∃ m : ℤ, p.2 = (m : ℚ)) (e : KeypointAndIndex) :
    e ∈ rowQuery kps imageHeight y ↔
      (kps[e.index]? = some e.measurement ∧ e.measurement.2 = (y : ℚ)) := by
  have hs := sortKeypointsByY_sorted kps
  rw [rowQuery]
  have h1 : min y (imageHeight - 1) = y := Nat.min_eq_left (by omega)
  have h2 : min (y + 1) (imageHeight - 1) = y + 1 := Nat.min_eq_left (by omega)
  rw [h1, h2, lutSlice,
    cornerRowLUT_getD _ hs imageHeight y (by omega),
    cornerRowLUT_getD _ hs imageHeight (y + 1) (by omega)]
  rw [sorted_slice_mem _ hs (y : ℚ) ((y + 1 : ℕ) : ℚ) (by push_cast; linarith) e]
  rw [sortKeypointsByY_mem]
  constructor
  · rintro ⟨hmem, hge, hlt⟩
    refine ⟨hmem, ?_⟩
    rcases hint e.measurement (List.getElem?_mem hmem) with ⟨m, hm⟩
    rw [hm] at hge hlt ⊢
    have hml : (y : ℤ) ≤ m := by exact_mod_cast hge
    have hmr : m < (y : ℤ) + 1 := by
      have : (m : ℚ) < ((y : ℕ) : ℚ) + 1 := by push_cast at hlt ⊢; linarith
      exact_mod_cast this
    have : m = (y : ℤ) := by omega
    rw [this]
    norm_num
  · rintro ⟨hmem, heq⟩
    refine ⟨hmem, by rw [heq], ?_⟩
    rw [heq]
    push_cast
    linarith

/-- Witness for C6's amended theorem: two keypoints in rows 0 and 1 of a
height-3 image, queried at row 1. -/
theorem rowLUT_query_exact_amended_witness :
    (1 + 2 ≤ 3 ∧ (∀ p ∈ [((0 : ℚ), (0 : ℚ)), ((0 : ℚ), (1 : ℚ))], ∃ m : ℤ, p.2 = (m : ℚ))) ∧
    ((⟨(0, 1), 1⟩ : KeypointAndIndex) ∈ rowQuery [((0 : ℚ), (0 : ℚ)), ((0 : ℚ), (1 : ℚ))] 3 1 ↔
      ([((0 : ℚ), (0 : ℚ)), ((0 : ℚ), (1 : ℚ))][(1 : ℕ)]? = some ((0 : ℚ), (1 : ℚ)) ∧
        ((0 : ℚ), (1 : ℚ)).2 = ((1 : ℕ) : ℚ))) :=
  ⟨⟨by decide, by
    intro p hp
    rcases List.mem_cons.mp hp with h | h
    · exact ⟨0, by rw [h]; decide⟩
    · rcases List.mem_cons.mp h with h2 | h2
      · exact ⟨1, by rw [h2]; decide⟩
      · simp at h2⟩,
   rowLUT_query_exact_amended [((0 : ℚ), (0 : ℚ)), ((0 : ℚ), (1 : ℚ))] 3 1
     (by decide)
     (by
       intro p hp
       rcases List.mem_cons.mp hp with h | h
       · exact ⟨0, by rw [h]; decide⟩
       · rcases List.mem_cons.mp h with h2 | h2
         · exact ⟨1, by rw [h2]; decide⟩
         · simp at h2)
     ⟨(0, 1), 1⟩⟩

/-! ### Admission stage lemmas -/

theorem stage3_foldl_eq (cfg : GyroTrackerConfig) (cam : Camera)
    (currentFrame : VisualFrame) (matchList : List (ℕ × ℕ)) :
    ∀ (l : List (ℕ × ℚ)) (s : AdmissionState),
      l.foldl (stage3Step cfg cam currentFrame matchList) s =
        { currentTrackIds := s.currentTrackIds
          currentTrackLengths := s.currentTrackLengths
          buckets := fun b => s.buckets b +
            ((l.filter (fun cand => decide (¬ currentFrame.scores.getD
                  (matchList.getD cand.1 (0, 0)).2 0
                < cfg.kKeypointScoreThresholdUnconditional))).map
              (fun cand => matchList.getD cand.1 (0, 0))).countP
              (fun m => decide (computeBinIndex cfg cam
                (currentFrame.keypoints.getD m.2 (0, 0)) = b))
          candidatesNewTracks := s.candidatesNewTracks ++
            (l.filter (fun cand => decide (¬ currentFrame.scores.getD
                  (matchList.getD cand.1 (0, 0)).2 0
                < cfg.kKeypointScoreThresholdUnconditional))).map
              (fun cand => matchList.getD cand.1 (0, 0)) } := by
  intro l
  induction l with
  | nil =>
    intro s
    cases s
    simp
  | cons c t ih =>
    intro s
    rw [List.foldl_cons]
    by_cases hsc : currentFrame.scores.getD (matchList.getD c.1 (0, 0)).2 0
        < cfg.kKeypointScoreThresholdUnconditional
    · have hstep : stage3Step cfg cam currentFrame matchList s c = s := by
        rw [stage3Step]
        dsimp only
        rw [if_pos hsc]
      rw [hstep, ih s, List.filter_cons_of_neg (by simpa using hsc)]
    · have hstep : stage3Step cfg cam currentFrame matchList s c =
          { s with
            buckets := bumpBucket s.buckets (computeBinIndex cfg cam
              (currentFrame.keypoints.getD (matchList.getD c.1 (0, 0)).2 (0, 0)))
            candidatesNewTracks := s.candidatesNewTracks ++ [matchList.getD c.1 (0, 0)] } := by
        rw [stage3Step]
        dsimp only
        rw [if_neg hsc]
      rw [hstep, ih _, List.filter_cons_of_pos (by simpa using hsc)]
      congr 1
      · funext b
        simp only [bumpBucket, List.map_cons, List.countP_cons]
        by_cases hb : b = computeBinIndex cfg cam
            (currentFrame.keypoints.getD (matchList.getD c.1 (0, 0)).2 (0, 0))
        · subst hb
          simp
          omega
        · have hb2 : ¬ (computeBinIndex cfg cam
              (currentFrame.keypoints.getD (matchList.getD c.1 (0, 0)).2 (0, 0)) = b) :=
            fun hh => hb hh.symm
          simp only [if_neg hb, hb2, decide_eq_false_iff_not, decide_eq_true_eq]
          simp [hb2]
      · simp

/-- C4: stage 2 sorts the new-track candidates ascending by score (and keeps
exactly the collected candidates), and stage 3 examines exactly the first
`min(kNumberOfKeyPointsUseUnconditional, #candidates)` entries of that
order: entries below the unconditional floor are rejected (consuming their
position but changing nothing), every other entry is admitted regardless of
bucket occupancy, incrementing its bucket and being appended, in order, to
the accepted list. -/
theorem stage3_sorted_unconditional_admission (cfg : GyroTrackerConfig) (cam : Camera)
    (currentFrame : VisualFrame) (matchList : List (ℕ × ℕ))
    (cands0 : List (ℕ × ℚ)) (s : AdmissionState) :
    (sortCandidates cands0).Pairwise (fun a b => a.2 ≤ b.2) ∧
    (sortCandidates cands0).Perm cands0 ∧
    stage3 cfg cam currentFrame matchList (sortCandidates cands0) s =
      { currentTrackIds := s.currentTrackIds
        currentTrackLengths := s.currentTrackLengths
        buckets := fun b => s.buckets b +
          (((sortCandidates cands0).take cfg.kNumberOfKeyPointsUseUnconditional).filter
              (fun cand => decide (¬ currentFrame.scores.getD
                  (matchList.getD cand.1 (0, 0)).2 0
                < cfg.kKeypointScoreThresholdUnconditional))).countP
            (fun cand => decide (computeBinIndex cfg cam
              (currentFrame.keypoints.getD (matchList.getD cand.1 (0, 0)).2 (0, 0)) = b))
        candidatesNewTracks := s.candidatesNewTracks ++
          (((sortCandidates cands0).take cfg.kNumberOfKeyPointsUseUnconditional).filter
              (fun cand => decide (¬ currentFrame.scores.getD
                  (matchList.getD cand.1 (0, 0)).2 0
                < cfg.kKeypointScoreThresholdUnconditional))).map
            (fun cand => matchList.getD cand.1 (0, 0)) } := by
  refine ⟨?_, ?_, ?_⟩
  · haveI : IsTotal (ℕ × ℚ) (fun a b => a.2 ≤ b.2) := ⟨fun a b => le_total _ _⟩
    haveI : IsTrans (ℕ × ℚ) (fun a b => a.2 ≤ b.2) := ⟨fun _ _ _ h1 h2 => le_trans h1 h2⟩
    exact List.sorted_insertionSort _ _
  · exact List.perm_insertionSort _ _
  · rw [stage3, stage3_foldl_eq]
    congr 1
    funext b
    rw [List.countP_map]
    rfl

theorem stage4Step_buckets_ge (cfg : GyroTrackerConfig) (cam : Camera)
    (currentFrame : VisualFrame) (matchList : List (ℕ × ℕ))
    (s : AdmissionState) (c : ℕ × ℚ) (b : ℤ) :
    s.buckets b ≤ (stage4Step cfg cam currentFrame matchList s c).buckets b := by
  rw [stage4Step]
  dsimp only
  split_ifs with h1 h2
  · exact le_refl _
  · simp only [bumpBucket]
    split_ifs with hb
    · omega
    · exact le_refl _
  · exact le_refl _

theorem stage4_foldl_buckets_mono (cfg : GyroTrackerConfig) (cam : Camera)
    (currentFrame : VisualFrame) (matchList : List (ℕ × ℕ)) :
    ∀ (l : List (ℕ × ℚ)) (s : AdmissionState) (b : ℤ),
      s.buckets b ≤ (l.foldl (stage4Step cfg cam currentFrame matchList) s).buckets b := by
  intro l
  induction l with
  | nil => intro s b; exact le_refl _
  | cons c t ih =>
    intro s b
    rw [List.foldl_cons]
    exact le_trans (stage4Step_buckets_ge cfg cam currentFrame matchList s c b) (ih _ b)

theorem stage4Step_buckets_le_max (cfg : GyroTrackerConfig) (cam : Camera)
    (currentFrame : VisualFrame) (matchList : List (ℕ × ℕ))
    (s : AdmissionState) (c : ℕ × ℚ) (b : ℤ) :
    (stage4Step cfg cam currentFrame matchList s c).buckets b
      ≤ max (s.buckets b) (numPtsPerBucket cfg) := by
  rw [stage4Step]
  dsimp only
  split_ifs with h1 h2
  · exact le_max_left _ _
  · simp only [bumpBucket]
    split_ifs with hb
    · subst hb
      have := h2
      omega
    · exact le_max_left _ _
  · exact le_max_left _ _

theorem stage4_foldl_buckets_le_max (cfg : GyroTrackerConfig) (cam : Camera)
    (currentFrame : VisualFrame) (matchList : List (ℕ × ℕ)) :
    ∀ (l : List (ℕ × ℚ)) (s : AdmissionState) (b : ℤ),
      (l.foldl (stage4Step cfg cam currentFrame matchList) s).buckets b
        ≤ max (s.buckets b) (numPtsPerBucket cfg) := by
  intro l
  induction l with
  | nil => intro s b; exact le_max_left _ _
  | cons c t ih =>
    intro s b
    rw [List.foldl_cons]
    have h1 := stage4Step_buckets_le_max cfg cam currentFrame matchList s c b
    have h2 := ih (stage4Step cfg cam currentFrame matchList s c) b
    omega

/-- C5: stage 4 examines the sorted candidates in order (first conjunct);
each examined candidate is admitted — bucket bumped and match appended —
exactly when its score is not below the strong floor and its bucket's
occupancy is strictly below `cap = kNumberOfKeyPointsUseStrong / (B*B)` at
that moment (second conjunct); bucket occupancies never decrease (third
conjunct); and whenever stage 4 admitted into a bucket, that bucket's final
occupancy — an upper bound for the occupancy right after each insertion —
is at most `cap`, hence at most `cap` plus the bucket's continued-track
count (fourth conjunct). -/
theorem stage4_strong_admission_cap (cfg : GyroTrackerConfig) (cam : Camera)
    (currentFrame : VisualFrame) (matchList : List (ℕ × ℕ))
    (cands : List (ℕ × ℚ)) (s : AdmissionState) :
    (∀ t, t < (stage4List cfg cands).length →
      ((stage4List cfg cands).take (t + 1)).foldl
          (stage4Step cfg cam currentFrame matchList) s
        = stage4Step cfg cam currentFrame matchList
            (((stage4List cfg cands).take t).foldl
              (stage4Step cfg cam currentFrame matchList) s)
            ((stage4List cfg cands).getD t (0, 0))) ∧
    (∀ (p : AdmissionState) (cand : ℕ × ℚ),
      stage4Step cfg cam currentFrame matchList p cand =
        if ¬ currentFrame.scores.getD (matchList.getD cand.1 (0, 0)).2 0
              < cfg.kKeypointScoreThresholdStrong
            ∧ p.buckets (computeBinIndex cfg cam
                (currentFrame.keypoints.getD (matchList.getD cand.1 (0, 0)).2 (0, 0)))
              < numPtsPerBucket cfg then
          { p with
            buckets := bumpBucket p.buckets (computeBinIndex cfg cam
              (currentFrame.keypoints.getD (matchList.getD cand.1 (0, 0)).2 (0, 0)))
            candidatesNewTracks := p.candidatesNewTracks ++ [matchList.getD cand.1 (0, 0)] }
        else p) ∧
    (∀ b, s.buckets b ≤ (stage4 cfg cam currentFrame matchList cands s).buckets b) ∧
    (∀ b, s.buckets b < (stage4 cfg cam currentFrame matchList cands s).buckets b →
      (stage4 cfg cam currentFrame matchList cands s).buckets b ≤ numPtsPerBucket cfg) := by
  refine ⟨fun t ht => ?_, fun p cand => ?_, fun b => ?_, fun b hgrow => ?_⟩
  · rw [List.take_succ, List.getElem?_eq_getElem ht]
    rw [List.foldl_append]
    simp [List.getD_eq_getElem?_getD, List.getElem?_eq_getElem ht]
  · rw [stage4Step]
    dsimp only
    by_cases h1 : currentFrame.scores.getD (matchList.getD cand.1 (0, 0)).2 0
        < cfg.kKeypointScoreThresholdStrong
    · rw [if_pos h1, if_neg (fun hc => hc.1 h1)]
    · rw [if_neg h1]
      by_cases h2 : p.buckets (computeBinIndex cfg cam
          (currentFrame.keypoints.getD (matchList.getD cand.1 (0, 0)).2 (0, 0)))
          < numPtsPerBucket cfg
      · rw [if_pos h2, if_pos ⟨h1, h2⟩]
      · rw [if_neg h2, if_neg (fun hc => h2 hc.2)]
  · exact stage4_foldl_buckets_mono cfg cam currentFrame matchList _ s b
  · have hle := stage4_foldl_buckets_le_max cfg cam currentFrame matchList
      (stage4List cfg cands) s b
    rw [stage4] at hgrow ⊢
    omega

/-- Witness for C5 at a concrete single-candidate, single-bucket scenario
in which stage 4 admits the candidate. -/
theorem stage4_strong_admission_cap_witness :
    (0 < (stage4List cfgOneBucket [((0 : ℕ), (9 : ℚ))]).length) ∧
    (((stage4List cfgOneBucket [((0 : ℕ), (9 : ℚ))]).take (0 + 1)).foldl
        (stage4Step cfgOneBucket (planeCamera 16 16) curFrameManyToOne [(0, 0)])
        stage4InitState
      = stage4Step cfgOneBucket (planeCamera 16 16) curFrameManyToOne [(0, 0)]
          (((stage4List cfgOneBucket [((0 : ℕ), (9 : ℚ))]).take 0).foldl
            (stage4Step cfgOneBucket (planeCamera 16 16) curFrameManyToOne [(0, 0)])
            stage4InitState)
          ((stage4List cfgOneBucket [((0 : ℕ), (9 : ℚ))]).getD 0 (0, 0))) ∧
    (stage4InitState.buckets 0 < (stage4 cfgOneBucket (planeCamera 16 16) curFrameManyToOne
        [(0, 0)] [((0 : ℕ), (9 : ℚ))] stage4InitState).buckets 0) ∧
    ((stage4 cfgOneBucket (planeCamera 16 16) curFrameManyToOne
        [(0, 0)] [((0 : ℕ), (9 : ℚ))] stage4InitState).buckets 0
      ≤ numPtsPerBucket cfgOneBucket) :=
  ⟨by decide,
   (stage4_strong_admission_cap cfgOneBucket (planeCamera 16 16) curFrameManyToOne
     [(0, 0)] [((0 : ℕ), (9 : ℚ))] stage4InitState).1 0 (by decide),
   by decide,
   (stage4_strong_admission_cap cfgOneBucket (planeCamera 16 16) curFrameManyToOne
     [(0, 0)] [((0 : ℕ), (9 : ℚ))] stage4InitState).2.2.2 0 (by decide)⟩

/-! ### C7: projection failures.

The source ignores the return status of `project3` (line 279): no skip of
the candidate search happens for a failed re-projection; the search runs on
whatever pixel the projection wrote and can emit a match. -/

/-- C7 counterexample: a camera whose projections all report failure. The
previous keypoint's re-projection fails, yet the match search still runs on
the written pixel and emits the match `(0, 0)`. -/
theorem matchFeatures_projection_failure_cex :
    (((planeCameraFailing 20 20).project3
        (Mat3.identity.mulVec ((planeCameraFailing 20 20).backProject3 (3, 3)))).1 = false) ∧
    prevFrameProj.keypoints = [(3, 3)] ∧
    matchFeatures (planeCameraFailing 20 20) Mat3.identity curFrameProj prevFrameProj
      = [(0, 0)] := by decide

/-- C7, amended: the tracker never inspects the projection status — the
match output depends only on the pixels `project3` writes (and no hard
failure is surfaced: `matchFeatures` is total). Cameras agreeing on the
written pixels, back-projections and image size produce identical matches
regardless of their projection-status flags. -/
theorem matchFeatures_projection_flag_irrelevant (cam1 cam2 : Camera) (C : Mat3)
    (currentFrame previousFrame : VisualFrame)
    (hH : cam1.imageHeight = cam2.imageHeight)
    (hbp : cam1.backProject3 = cam2.backProject3)
    (hpx : ∀ v, (cam1.project3 v).2 = (cam2.project3 v).2) :
    matchFeatures cam1 C currentFrame previousFrame
      = matchFeatures cam2 C currentFrame previousFrame := by
  have hpred : ∀ p, predictKeypoint cam1 C p = predictKeypoint cam2 C p := by
    intro p
    rw [predictKeypoint, predictKeypoint, hbp, hpx]
  simp only [matchFeatures, hH, hpred]

/-- Witness for C7's amended theorem: the always-failing and the
always-succeeding plane cameras produce the same matches. -/
theorem matchFeatures_projection_flag_irrelevant_witness :
    ((planeCameraFailing 20 20).imageHeight = (planeCamera 20 20).imageHeight ∧
     (planeCameraFailing 20 20).backProject3 = (planeCamera 20 20).backProject3 ∧
     (∀ v, ((planeCameraFailing 20 20).project3 v).2 = ((planeCamera 20 20).project3 v).2)) ∧
    matchFeatures (planeCameraFailing 20 20) Mat3.identity curFrameProj prevFrameProj
      = matchFeatures (planeCamera 20 20) Mat3.identity curFrameProj prevFrameProj :=
  ⟨⟨rfl, rfl, fun _ => rfl⟩,
   matchFeatures_projection_flag_irrelevant (planeCameraFailing 20 20) (planeCamera 20 20)
     Mat3.identity curFrameProj prevFrameProj rfl rfl (fun _ => rfl)⟩

/-! ### C3: totality of addFrame.

`addFrame` is not total over well-formed inputs: when two previous keypoints
match the same current keypoint — one on an established track, one untracked
— stage 1 first records the continued track as accepted and then overwrites
the current id with `-1`, so the ledger loop reaches the accepted continued
match with a current id of `-1` and a previous id that is not `-1`, firing
the fatal `CHECK_EQ(previous_track_id, -1)` (line 193) whose own message
asserts this cannot happen. The abort occurs before any ledger write, so no
tracker or frame state has been mutated at that point (the error value
carries the untouched channels). -/

/-- C3, code evaluation at the failing input: previous frame with keypoints
(4,4) on track 5 (length 3) and (5,4) untracked, current frame with the
single keypoint (4,4) all descriptors equal. Every in-loop matcher check and
the bucket check hold (the input is well-formed), both previous keypoints
match current keypoint 0, and `addFrame` aborts in the ledger with the
previous frame's channel (`[5, -1]`) and the id counter (7) still
untouched. -/
theorem addFrame_many_to_one_fatal_check :
    matchSearchChecksOk (planeCamera 16 16) Mat3.identity curFrameManyToOne prevFrameManyToOne ∧
    binIndexCheckOk cfgB (planeCamera 16 16) ((4 : ℚ), (4 : ℚ)) ∧
    matchFeatures (planeCamera 16 16) Mat3.identity curFrameManyToOne prevFrameManyToOne
      = [(0, 0), (1, 0)] ∧
    addFrame cfgB (planeCamera 16 16) stateManyToOne curFrameManyToOne Mat3.identity
      = .error (.newTrackPrevIdCheck ⟨[5, -1], [-1], [1], 7⟩) := by decide

/-! ### List update helpers -/

theorem getD_set_self {α : Type} (l : List α) (i : ℕ) (a d : α) (h : i < l.length) :
    (l.set i a).getD i d = a := by
  simp [List.getD_eq_getElem?_getD, List.getElem?_set_self h]

theorem getD_set_ne {α : Type} (l : List α) {i j : ℕ} (a d : α) (h : i ≠ j) :
    (l.set i a).getD j d = l.getD j d := by
  simp [List.getD_eq_getElem?_getD, List.getElem?_set_ne h]

theorem getD_replicate_lt {α : Type} (n : ℕ) (a d : α) {j : ℕ} (h : j < n) :
    (List.replicate n a).getD j d = a := by
  simp [List.getD_eq_getElem?_getD, List.getElem?_replicate_of_lt h]

/-! ### Match output bounds -/

theorem lutSlice_subset (sorted : List KeypointAndIndex) (lut : List ℕ) (top bot : ℕ) :
    ∀ e ∈ lutSlice sorted lut top bot, e ∈ sorted := by
  intro e he
  rw [lutSlice] at he
  exact (List.take_sublist _ _).subset ((List.drop_sublist _ _).subset he)

theorem searchStep_itBest_cases (descs : List (List ℕ)) (pd : List ℕ)
    (skip : Bool) (lo hi : ℤ) :
    ∀ (l : List KeypointAndIndex) (s : SearchState),
      (l.foldl (searchStep descs pd skip lo hi) s).itBest = s.itBest
      ∨ ∃ c ∈ l, (l.foldl (searchStep descs pd skip lo hi) s).itBest = some c := by
  intro l
  induction l with
  | nil => intro s; exact Or.inl rfl
  | cons c t ih =>
    intro s
    rw [List.foldl_cons]
    rcases ih (searchStep descs pd skip lo hi s c) with h | ⟨c2, hc2, h⟩
    · have hstep : (searchStep descs pd skip lo hi s c).itBest = s.itBest
          ∨ (searchStep descs pd skip lo hi s c).itBest = some c := by
        rw [searchStep]
        dsimp only
        split_ifs <;> simp
      rcases hstep with h2 | h2
      · exact Or.inl (h.trans h2)
      · exact Or.inr ⟨c, List.mem_cons_self _ _, h.trans h2⟩
    · exact Or.inr ⟨c2, List.mem_cons_of_mem _ hc2, h⟩

theorem matchOneKeypoint_itBest_cases (sorted : List KeypointAndIndex) (lut : List ℕ)
    (imageHeight : ℕ) (descs : List (List ℕ)) (pd : List ℕ) (pred : ℚ × ℚ) :
    (matchOneKeypoint sorted lut imageHeight descs pd pred).itBest = none
    ∨ ∃ c ∈ sorted, (matchOneKeypoint sorted lut imageHeight descs pd pred).itBest = some c := by
  rw [matchOneKeypoint]
  set b := searchBoundsFor imageHeight pred
  set init : SearchState := ⟨false, 512 - kMatchingThresholdBits, none, []⟩ with hinit
  set s1 := (lutSlice sorted lut b.nearestTop b.nearestBottom).foldl
    (searchStep descs pd false b.boundLeftNearest b.boundRightNearest) init with hs1
  by_cases hf : s1.found
  · rw [if_pos hf]
    rcases searchStep_itBest_cases descs pd false b.boundLeftNearest b.boundRightNearest
        (lutSlice sorted lut b.nearestTop b.nearestBottom) init with h | ⟨c, hc, h⟩
    · rw [← hs1] at h
      exact Or.inl h
    · rw [← hs1] at h
      exact Or.inr ⟨c, lutSlice_subset _ _ _ _ c hc, h⟩
  · rw [if_neg hf]
    rcases searchStep_itBest_cases descs pd true b.boundLeftNear b.boundRightNear
        (lutSlice sorted lut b.nearTop b.nearBottom) s1 with h | ⟨c, hc, h⟩
    · rw [h]
      rcases searchStep_itBest_cases descs pd false b.boundLeftNearest b.boundRightNearest
          (lutSlice sorted lut b.nearestTop b.nearestBottom) init with h2 | ⟨c, hc, h2⟩
      · rw [← hs1] at h2
        exact Or.inl h2
      · rw [← hs1] at h2
        exact Or.inr ⟨c, lutSlice_subset _ _ _ _ c hc, h2⟩
    · exact Or.inr ⟨c, lutSlice_subset _ _ _ _ c hc, h⟩

theorem mem_sortKeypointsByY_index_lt (kps : List (ℚ × ℚ)) (e : KeypointAndIndex)
    (he : e ∈ sortKeypointsByY kps) : e.index < kps.length := by
  have h := (sortKeypointsByY_mem kps e).mp he
  rcases List.getElem?_eq_some.mp h with ⟨hlt, _⟩
  exact hlt

theorem matchFeatures_mem_lt (cam : Camera) (C : Mat3) (cur prev : VisualFrame) :
    ∀ m ∈ matchFeatures cam C cur prev,
      m.1 < prev.keypoints.length ∧ m.2 < cur.keypoints.length := by
  intro m hm
  rw [matchFeatures] at hm
  dsimp only at hm
  rcases List.mem_filterMap.mp hm with ⟨i, hi, hif⟩
  rw [List.mem_range] at hi
  by_cases hf : (matchOneKeypoint (sortKeypointsByY cur.keypoints)
      (cornerRowLUT (sortKeypointsByY cur.keypoints) cam.imageHeight) cam.imageHeight
      cur.descriptors (prev.descriptors.getD i [])
      (predictKeypoint cam C (prev.keypoints.getD i (0, 0)))).found
  · rw [if_pos hf] at hif
    rcases Option.map_eq_some'.mp hif with ⟨c, hc, hcm⟩
    rcases matchOneKeypoint_itBest_cases (sortKeypointsByY cur.keypoints)
        (cornerRowLUT (sortKeypointsByY cur.keypoints) cam.imageHeight) cam.imageHeight
        cur.descriptors (prev.descriptors.getD i [])
        (predictKeypoint cam C (prev.keypoints.getD i (0, 0))) with h | ⟨c2, hc2, h⟩
    · rw [h] at hc
      exact absurd hc (by simp)
    · rw [h] at hc
      have hcc : c2 = c := by
        injection hc
      rw [← hcm]
      refine ⟨hi, ?_⟩
      have := mem_sortKeypointsByY_index_lt cur.keypoints c2 hc2
      rw [hcc] at this
      exact this
  · rw [if_neg hf] at hif
    exact absurd hif (by simp)

/-! ### Stage 1 characterization -/

theorem stage1Step_fields (cfg : GyroTrackerConfig) (cam : Camera)
    (prevIds : List ℤ) (prevLens : List ℕ) (cur : VisualFrame)
    (s : AdmissionState) (m : ℕ × ℕ) :
    (stage1Step cfg cam prevIds prevLens cur s m).currentTrackIds
        = s.currentTrackIds.set m.2 (prevIds.getD m.1 (-1)) ∧
    (stage1Step cfg cam prevIds prevLens cur s m).currentTrackLengths
        = s.currentTrackLengths.set m.2 (prevLens.getD m.1 0 + 1) := by
  rw [stage1Step]
  dsimp only
  split_ifs <;> exact ⟨rfl, rfl⟩

theorem stage1_lengths (cfg : GyroTrackerConfig) (cam : Camera)
    (prevIds : List ℤ) (prevLens : List ℕ) (cur : VisualFrame) :
    ∀ (ml : List (ℕ × ℕ)) (s : AdmissionState),
      (stage1 cfg cam prevIds prevLens cur ml s).currentTrackIds.length
          = s.currentTrackIds.length ∧
      (stage1 cfg cam prevIds prevLens cur ml s).currentTrackLengths.length
          = s.currentTrackLengths.length := by
  intro ml
  induction ml with
  | nil => intro s; exact ⟨rfl, rfl⟩
  | cons m t ih =>
    intro s
    rw [stage1, List.foldl_cons]
    have h := stage1Step_fields cfg cam prevIds prevLens cur s m
    have h2 := ih (stage1Step cfg cam prevIds prevLens cur s m)
    rw [stage1] at h2
    rw [h2.1, h2.2, h.1, h.2]
    simp

theorem stage1_getD (cfg : GyroTrackerConfig) (cam : Camera)
    (prevIds : List ℤ) (prevLens : List ℕ) (cur : VisualFrame) :
    ∀ (ml : List (ℕ × ℕ)) (s : AdmissionState) (j : ℕ),
      j < s.currentTrackIds.length → j < s.currentTrackLengths.length →
      (stage1 cfg cam prevIds prevLens cur ml s).currentTrackIds.getD j 0
        = (ml.filter (fun m => decide (m.2 = j))).getLast?.elim
            (s.currentTrackIds.getD j 0) (fun m => prevIds.getD m.1 (-1)) ∧
      (stage1 cfg cam prevIds prevLens cur ml s).currentTrackLengths.getD j 0
        = (ml.filter (fun m => decide (m.2 = j))).getLast?.elim
            (s.currentTrackLengths.getD j 0) (fun m => prevLens.getD m.1 0 + 1) := by
  intro ml
  induction ml using List.reverseRecOn with
  | nil => intro s j _ _; exact ⟨rfl, rfl⟩
  | append_singleton ms m ih =>
    intro s j hj1 hj2
    have hfold : stage1 cfg cam prevIds prevLens cur (ms ++ [m]) s
        = stage1Step cfg cam prevIds prevLens cur
            (stage1 cfg cam prevIds prevLens cur ms s) m := by
      rw [stage1, stage1, List.foldl_append, List.foldl_cons, List.foldl_nil]
    have hfields := stage1Step_fields cfg cam prevIds prevLens cur
      (stage1 cfg cam prevIds prevLens cur ms s) m
    have hlen := stage1_lengths cfg cam prevIds prevLens cur ms s
    have hih := ih s j hj1 hj2
    rw [hfold, hfields.1, hfields.2, List.filter_append]
    by_cases hm : m.2 = j
    · rw [List.filter_cons_of_pos (by simpa using hm), List.filter_nil,
        List.getLast?_concat]
      subst hm
      constructor
      · rw [getD_set_self _ _ _ _ (by rw [hlen.1]; exact hj1)]
        rfl
      · rw [getD_set_self _ _ _ _ (by rw [hlen.2]; exact hj2)]
        rfl
    · rw [List.filter_cons_of_neg (by simpa using hm), List.filter_nil,
        List.append_nil]
      constructor
      · rw [getD_set_ne _ _ _ hm, hih.1]
      · rw [getD_set_ne _ _ _ hm, hih.2]

theorem stage3_ids_lens (cfg : GyroTrackerConfig) (cam : Camera)
    (cur : VisualFrame) (ml : List (ℕ × ℕ)) (cands : List (ℕ × ℚ)) (s : AdmissionState) :
    (stage3 cfg cam cur ml cands s).currentTrackIds = s.currentTrackIds ∧
    (stage3 cfg cam cur ml cands s).currentTrackLengths = s.currentTrackLengths := by
  rw [stage3, stage3_foldl_eq]
  exact ⟨rfl, rfl⟩

theorem stage4Step_ids_lens (cfg : GyroTrackerConfig) (cam : Camera)
    (cur : VisualFrame) (ml : List (ℕ × ℕ)) (s : AdmissionState) (c : ℕ × ℚ) :
    (stage4Step cfg cam cur ml s c).currentTrackIds = s.currentTrackIds ∧
    (stage4Step cfg cam cur ml s c).currentTrackLengths = s.currentTrackLengths := by
  rw [stage4Step]
  dsimp only
  split_ifs <;> exact ⟨rfl, rfl⟩

theorem stage4_ids_lens (cfg : GyroTrackerConfig) (cam : Camera)
    (cur : VisualFrame) (ml : List (ℕ × ℕ)) :
    ∀ (l : List (ℕ × ℚ)) (s : AdmissionState),
      (l.foldl (stage4Step cfg cam cur ml) s).currentTrackIds = s.currentTrackIds ∧
      (l.foldl (stage4Step cfg cam cur ml) s).currentTrackLengths = s.currentTrackLengths := by
  intro l
  induction l with
  | nil => intro s; exact ⟨rfl, rfl⟩
  | cons c t ih =>
    intro s
    rw [List.foldl_cons]
    have h1 := stage4Step_ids_lens cfg cam cur ml s c
    have h2 := ih (stage4Step cfg cam cur ml s c)
    rw [h2.1, h2.2, h1.1, h1.2]
    exact ⟨rfl, rfl⟩

/-! ### Ledger loop lemmas -/

theorem mem_getD {α : Type} (l : List α) (i : ℕ) (d : α) (h : i < l.length) :
    l.getD i d ∈ l := by
  rw [List.getD_eq_getElem?_getD, List.getElem?_eq_getElem h]
  exact List.getElem_mem h

theorem ledgerLoop_ok_getD :
    ∀ (ms : List (ℕ × ℕ)) (p c : List ℤ) (l : List ℕ) (n : ℤ)
      (p' c' : List ℤ) (l' : List ℕ) (n' : ℤ),
      ledgerLoop ms p c l n = .ok (p', c', l', n') → 0 ≤ n →
      (∀ x ∈ ms, x.2 < c.length ∧ x.2 < l.length) →
      ∀ j,
        (c'.getD j 0 = c.getD j 0 ∧ l'.getD j 0 = l.getD j 0)
        ∨ (c.getD j 0 = -1 ∧ 0 < c'.getD j 0 ∧ l'.getD j 0 = 2 ∧ ∃ x ∈ ms, x.2 = j) := by
  intro ms
  induction ms with
  | nil =>
    intro p c l n p' c' l' n' hok _ _ j
    rw [ledgerLoop] at hok
    simp only [Except.ok.injEq, Prod.mk.injEq] at hok
    rcases hok with ⟨_, hc, hl, _⟩
    rw [← hc, ← hl]
    exact Or.inl ⟨rfl, rfl⟩
  | cons m rest ih =>
    intro p c l n p' c' l' n' hok hn hb j
    rw [ledgerLoop] at hok
    by_cases h1 : c.getD m.2 0 = -1
    · rw [if_pos h1] at hok
      by_cases h2 : p.length ≤ m.1
      · rw [if_pos h2] at hok
        exact absurd hok (by simp)
      · rw [if_neg h2] at hok
        by_cases h3 : p.getD m.1 0 = -1
        · rw [if_pos h3] at hok
          dsimp only at hok
          have hb2 : ∀ x ∈ rest,
              x.2 < (c.set m.2 (n + 1)).length ∧ x.2 < (l.set m.2 2).length := by
            intro x hx
            rw [List.length_set, List.length_set]
            exact hb x (List.mem_cons_of_mem _ hx)
          have hrec := ih (p.set m.1 (n + 1)) (c.set m.2 (n + 1)) (l.set m.2 2) (n + 1)
            p' c' l' n' hok (by omega) hb2 j
          by_cases hmj : m.2 = j
          · subst hmj
            have hcc : (c.set m.2 (n + 1)).getD m.2 0 = n + 1 :=
              getD_set_self _ _ _ _ (hb m (List.mem_cons_self _ _)).1
            have hll : (l.set m.2 2).getD m.2 0 = 2 :=
              getD_set_self _ _ _ _ (hb m (List.mem_cons_self _ _)).2
            rcases hrec with ⟨hc', hl'⟩ | ⟨hcm, hc', hl', _⟩
            · rw [hcc] at hc'
              rw [hll] at hl'
              exact Or.inr ⟨h1, by omega, hl', ⟨m, List.mem_cons_self _ _, rfl⟩⟩
            · rw [hcc] at hcm
              omega
          · have hcc : (c.set m.2 (n + 1)).getD j 0 = c.getD j 0 := getD_set_ne _ _ _ hmj
            have hll : (l.set m.2 2).getD j 0 = l.getD j 0 := getD_set_ne _ _ _ hmj
            rcases hrec with ⟨hc', hl'⟩ | ⟨hcm, hc', hl', ⟨x, hx, hxj⟩⟩
            · rw [hcc] at hc'
              rw [hll] at hl'
              exact Or.inl ⟨hc', hl'⟩
            · rw [hcc] at hcm
              exact Or.inr ⟨hcm, hc', hl', ⟨x, List.mem_cons_of_mem _ hx, hxj⟩⟩
        · rw [if_neg h3] at hok
          exact absurd hok (by simp)
    · rw [if_neg h1] at hok
      have hrec := ih p c l n p' c' l' n' hok hn
        (fun x hx => hb x (List.mem_cons_of_mem _ hx)) j
      rcases hrec with h | ⟨hcm, hc', hl', ⟨x, hx, hxj⟩⟩
      · exact Or.inl h
      · exact Or.inr ⟨hcm, hc', hl', ⟨x, List.mem_cons_of_mem _ hx, hxj⟩⟩

/-! ### Accepted-list membership -/

theorem stage1Step_accepted (cfg : GyroTrackerConfig) (cam : Camera)
    (prevIds : List ℤ) (prevLens : List ℕ) (cur : VisualFrame)
    (s : AdmissionState) (m : ℕ × ℕ) :
    (stage1Step cfg cam prevIds prevLens cur s m).candidatesNewTracks
        = s.candidatesNewTracks
    ∨ (stage1Step cfg cam prevIds prevLens cur s m).candidatesNewTracks
        = s.candidatesNewTracks ++ [m] := by
  rw [stage1Step]
  dsimp only
  split_ifs
  · exact Or.inr rfl
  · exact Or.inl rfl

theorem stage1_accepted_mem (cfg : GyroTrackerConfig) (cam : Camera)
    (prevIds : List ℤ) (prevLens : List ℕ) (cur : VisualFrame) :
    ∀ (ml : List (ℕ × ℕ)) (s : AdmissionState),
      ∀ x ∈ (stage1 cfg cam prevIds prevLens cur ml s).candidatesNewTracks,
        x ∈ s.candidatesNewTracks ∨ x ∈ ml := by
  intro ml
  induction ml with
  | nil => intro s x hx; exact Or.inl hx
  | cons m t ih =>
    intro s x hx
    rw [stage1, List.foldl_cons] at hx
    rcases ih (stage1Step cfg cam prevIds prevLens cur s m) x hx with h | h
    · rcases stage1Step_accepted cfg cam prevIds prevLens cur s m with h2 | h2
      · rw [h2] at h
        exact Or.inl h
      · rw [h2] at h
        rcases List.mem_append.mp h with h3 | h3
        · exact Or.inl h3
        · exact Or.inr (by simp at h3; simp [h3])
    · exact Or.inr (List.mem_cons_of_mem _ h)

theorem collectCandidates_fst_lt (cur : VisualFrame) (ids : List ℤ)
    (ml : List (ℕ × ℕ)) :
    ∀ cand ∈ collectCandidates cur ids ml, cand.1 < ml.length := by
  intro cand h
  rw [collectCandidates] at h
  rcases List.mem_filterMap.mp h with ⟨i, hi, hif⟩
  rw [List.mem_range] at hi
  dsimp only at hif
  split_ifs at hif
  simp only [Option.some.injEq] at hif
  rw [← hif]
  exact hi

theorem stage3_accepted_mem (cfg : GyroTrackerConfig) (cam : Camera)
    (cur : VisualFrame) (ml : List (ℕ × ℕ)) (cands : List (ℕ × ℚ)) (s : AdmissionState)
    (hb : ∀ cand ∈ cands, cand.1 < ml.length) :
    ∀ x ∈ (stage3 cfg cam cur ml cands s).candidatesNewTracks,
      x ∈ s.candidatesNewTracks ∨ x ∈ ml := by
  intro x hx
  rw [stage3, stage3_foldl_eq] at hx
  dsimp only at hx
  rcases List.mem_append.mp hx with h | h
  · exact Or.inl h
  · rcases List.mem_map.mp h with ⟨cand, hcand, hx2⟩
    have hc2 : cand ∈ cands :=
      (List.take_sublist _ _).subset ((List.filter_sublist _).subset hcand)
    rw [← hx2]
    exact Or.inr (mem_getD _ _ _ (hb cand hc2))

theorem stage4Step_accepted (cfg : GyroTrackerConfig) (cam : Camera)
    (cur : VisualFrame) (ml : List (ℕ × ℕ)) (s : AdmissionState) (c : ℕ × ℚ) :
    (stage4Step cfg cam cur ml s c).candidatesNewTracks = s.candidatesNewTracks
    ∨ (stage4Step cfg cam cur ml s c).candidatesNewTracks
        = s.candidatesNewTracks ++ [ml.getD c.1 (0, 0)] := by
  rw [stage4Step]
  dsimp only
  split_ifs
  · exact Or.inl rfl
  · exact Or.inr rfl
  · exact Or.inl rfl

theorem stage4_accepted_mem (cfg : GyroTrackerConfig) (cam : Camera)
    (cur : VisualFrame) (ml : List (ℕ × ℕ)) :
    ∀ (l : List (ℕ × ℚ)) (s : AdmissionState),
      (∀ cand ∈ l, cand.1 < ml.length) →
      ∀ x ∈ (l.foldl (stage4Step cfg cam cur ml) s).candidatesNewTracks,
        x ∈ s.candidatesNewTracks ∨ x ∈ ml := by
  intro l
  induction l with
  | nil => intro s _ x hx; exact Or.inl hx
  | cons c t ih =>
    intro s hb x hx
    rw [List.foldl_cons] at hx
    rcases ih (stage4Step cfg cam cur ml s c)
        (fun cand hcand => hb cand (List.mem_cons_of_mem _ hcand)) x hx with h | h
    · rcases stage4Step_accepted cfg cam cur ml s c with h2 | h2
      · rw [h2] at h
        exact Or.inl h
      · rw [h2] at h
        rcases List.mem_append.mp h with h3 | h3
        · exact Or.inl h3
        · simp only [List.mem_singleton] at h3
          rw [h3]
          exact Or.inr (mem_getD _ _ _ (hb c (List.mem_cons_self _ _)))
    · exact Or.inr h

/-! ### C2: track lengths after addFrame.

Stage 1 writes `previous_length + 1` into the fresh length vector for every
match, accepted or not, so a matched-but-unaccepted current keypoint ends
the call with track id `-1` but a positive length: the claimed equivalence
`length > 0 iff id != -1` fails in the right-to-left-only direction. -/

/-- C2, amended: after a successful non-initializing `addFrame`,
`current_track_lengths[j] > 0` iff some match targets `j` (not iff the id is
non-`-1`); a non-`-1` id still implies a positive length; for the last match
targeting `j`: a continued track carries the previous id and previous
length + 1, a newly born track has length 2, and a matched-but-unaccepted
keypoint keeps id `-1` but carries previous length + 1; unmatched keypoints
keep id `-1` and length 0. -/
theorem addFrame_track_length_invariant_amended (cfg : GyroTrackerConfig) (cam : Camera)
    (st : GyroTrackerState) (cur : VisualFrame) (C : Mat3) (pf : VisualFrame)
    (r : AddFrameSuccess) (j : ℕ)
    (hpf : st.previousFramePtr = some pf)
    (hnid : 0 ≤ st.currentTrackId)
    (hne : cur.keypoints.length ≠ 0)
    (hok : addFrame cfg cam st cur C = .ok r)
    (hj : j < cur.keypoints.length) :
    (0 < r.newState.previousTrackLengths.getD j 0
      ↔ ∃ m ∈ matchFeatures cam C cur pf, m.2 = j) ∧
    ((∀ m ∈ matchFeatures cam C cur pf, m.2 ≠ j) →
      r.currentTrackIds.getD j 0 = -1 ∧ r.newState.previousTrackLengths.getD j 0 = 0) ∧
    (r.currentTrackIds.getD j 0 ≠ -1 → 0 < r.newState.previousTrackLengths.getD j 0) ∧
    (∀ m, ((matchFeatures cam C cur pf).filter (fun x => decide (x.2 = j))).getLast?
        = some m →
      (0 ≤ pf.trackIds.getD m.1 (-1) →
        r.currentTrackIds.getD j 0 = pf.trackIds.getD m.1 (-1) ∧
        r.newState.previousTrackLengths.getD j 0
          = st.previousTrackLengths.getD m.1 0 + 1) ∧
      (pf.trackIds.getD m.1 (-1) = -1 → r.currentTrackIds.getD j 0 ≠ -1 →
        r.newState.previousTrackLengths.getD j 0 = 2) ∧
      (pf.trackIds.getD m.1 (-1) = -1 → r.currentTrackIds.getD j 0 = -1 →
        r.newState.previousTrackLengths.getD j 0
          = st.previousTrackLengths.getD m.1 0 + 1)) := by
  rw [addFrame, hpf] at hok
  dsimp only at hok
  rw [if_neg hne] at hok
  split_ifs at hok with hch
  set ml := matchFeatures cam C cur pf with hml
  set s0 : AdmissionState :=
    { currentTrackIds := List.replicate cur.keypoints.length (-1)
      currentTrackLengths := List.replicate cur.keypoints.length 0
      buckets := fun _ => 0
      candidatesNewTracks := [] } with hs0
  set s1 := stage1 cfg cam pf.trackIds st.previousTrackLengths cur ml s0 with hs1
  set cands := sortCandidates (collectCandidates cur s1.currentTrackIds ml) with hcands
  set s3 := stage3 cfg cam cur ml cands s1 with hs3
  set s4 := stage4 cfg cam cur ml cands s3 with hs4
  split at hok
  · exact absurd hok (by simp)
  rename_i p' c' l' n' heq
  simp only [Except.ok.injEq] at hok
  subst hok
  dsimp only
  -- the ids and lengths entering the ledger are the stage-1 ones
  have hids4 : s4.currentTrackIds = s1.currentTrackIds := by
    rw [hs4, stage4, (stage4_ids_lens cfg cam cur ml _ s3).1,
      (stage3_ids_lens cfg cam cur ml cands s1).1]
  have hlens4 : s4.currentTrackLengths = s1.currentTrackLengths := by
    rw [hs4, stage4, (stage4_ids_lens cfg cam cur ml _ s3).2,
      (stage3_ids_lens cfg cam cur ml cands s1).2]
  have hlen1 : s1.currentTrackIds.length = cur.keypoints.length := by
    rw [hs1, (stage1_lengths cfg cam pf.trackIds st.previousTrackLengths cur ml s0).1]
    simp [hs0]
  have hlen1L : s1.currentTrackLengths.length = cur.keypoints.length := by
    rw [hs1, (stage1_lengths cfg cam pf.trackIds st.previousTrackLengths cur ml s0).2]
    simp [hs0]
  have hmlb := matchFeatures_mem_lt cam C cur pf
  have hcb : ∀ cand ∈ cands, cand.1 < ml.length := by
    intro cand h
    exact collectCandidates_fst_lt cur s1.currentTrackIds ml cand
      ((List.perm_insertionSort _ _).subset h)
  have haccb : ∀ x ∈ s4.candidatesNewTracks, x ∈ ml := by
    intro x hx
    have h4b : ∀ cand ∈ stage4List cfg cands, cand.1 < ml.length := by
      intro cand h
      exact hcb cand ((List.take_sublist _ _).subset ((List.drop_sublist _ _).subset h))
    rcases stage4_accepted_mem cfg cam cur ml (stage4List cfg cands) s3 h4b x
        (by rw [hs4, stage4] at hx; exact hx) with h | h
    · rcases stage3_accepted_mem cfg cam cur ml cands s1 hcb x h with h2 | h2
      · rcases stage1_accepted_mem cfg cam pf.trackIds st.previousTrackLengths cur ml s0 x
            (by rw [hs1] at h2; exact h2) with h3 | h3
        · rw [hs0] at h3
          exact absurd h3 (by simp)
        · exact h3
      · exact h2
    · exact h
  have hledb : ∀ x ∈ s4.candidatesNewTracks,
      x.2 < s4.currentTrackIds.length ∧ x.2 < s4.currentTrackLengths.length := by
    intro x hx
    rw [hids4, hlens4, hlen1, hlen1L]
    exact ⟨(hmlb x (haccb x hx)).2, (hmlb x (haccb x hx)).2⟩
  have hdisj := ledgerLoop_ok_getD s4.candidatesNewTracks pf.trackIds
    s4.currentTrackIds s4.currentTrackLengths st.currentTrackId p' c' l' n'
    heq hnid hledb j
  rw [hids4, hlens4] at hdisj
  have hstage1 := stage1_getD cfg cam pf.trackIds st.previousTrackLengths cur ml s0 j
    (by simp [hs0]; exact hj) (by simp [hs0]; exact hj)
  rw [← hs1] at hstage1
  have hs0ids : s0.currentTrackIds.getD j 0 = -1 := by
    rw [hs0]
    exact getD_replicate_lt _ _ _ hj
  have hs0lens : s0.currentTrackLengths.getD j 0 = 0 := by
    rw [hs0]
    exact getD_replicate_lt _ _ _ hj
  rw [hs0ids] at hstage1
  rw [hs0lens] at hstage1
  -- case split on whether some match targets j
  rcases hlast : (ml.filter (fun x => decide (x.2 = j))).getLast? with _ | m0
  · -- no match targets j
    have hfil : ∀ m ∈ ml, m.2 ≠ j := by
      intro m hm hmj
      have : m ∈ ml.filter (fun x => decide (x.2 = j)) :=
        List.mem_filter.mpr ⟨hm, by simpa using hmj⟩
      rcases List.getLast?_eq_none_iff.mp hlast with hnil
      rw [hnil] at this
      exact absurd this (by simp)
    rw [hlast] at hstage1
    have hin_ids : s1.currentTrackIds.getD j 0 = -1 := by rw [hstage1.1]; rfl
    have hin_lens : s1.currentTrackLengths.getD j 0 = 0 := by rw [hstage1.2]; rfl
    have hnone : ∀ x ∈ s4.candidatesNewTracks, x.2 ≠ j := fun x hx => hfil x (haccb x hx)
    have hleft : c'.getD j 0 = -1 ∧ l'.getD j 0 = 0 := by
      rcases hdisj with ⟨hc, hl⟩ | ⟨_, _, _, ⟨x, hx, hxj⟩⟩
      · rw [hc, hl, hin_ids, hin_lens]
        exact ⟨rfl, rfl⟩
      · exact absurd hxj (hnone x hx)
    refine ⟨?_, fun _ => hleft, fun hne2 => absurd hleft.1 hne2, fun m hm => ?_⟩
    · rw [hleft.2]
      constructor
      · intro h
        exact absurd h (by omega)
      · rintro ⟨m, hm, hmj⟩
        exact absurd hmj (hfil m hm)
    · rw [hlast] at hm
      exact absurd hm (by simp)
  · -- the last match targeting j is m0
    rw [hlast] at hstage1
    have hin_ids : s1.currentTrackIds.getD j 0 = pf.trackIds.getD m0.1 (-1) := by
      rw [hstage1.1]
      rfl
    have hin_lens : s1.currentTrackLengths.getD j 0
        = st.previousTrackLengths.getD m0.1 0 + 1 := by
      rw [hstage1.2]
      rfl
    have hmatched : ∃ m ∈ ml, m.2 = j := by
      have hmem : m0 ∈ ml.filter (fun x => decide (x.2 = j)) :=
        List.mem_of_mem_getLast? (Option.mem_def.mpr hlast)
      rcases List.mem_filter.mp hmem with ⟨h1, h2⟩
      exact ⟨m0, h1, by simpa using h2⟩
    have hpos : 0 < l'.getD j 0 := by
      rcases hdisj with ⟨_, hl⟩ | ⟨_, _, hl, _⟩
      · rw [hl, hin_lens]
        omega
      · omega
    refine ⟨⟨fun _ => hmatched, fun _ => hpos⟩, fun hnm => ?_, fun _ => hpos, fun m hm => ?_⟩
    · rcases hmatched with ⟨m, hmml, hmj⟩
      exact absurd hmj (hnm m hmml)
    · rw [hlast] at hm
      simp only [Option.some.injEq] at hm
      subst hm
      refine ⟨fun hge => ?_, fun hm1 hne2 => ?_, fun hm1 heqm => ?_⟩
      · have hinne : s1.currentTrackIds.getD j 0 ≠ -1 := by
          rw [hin_ids]
          omega
        rcases hdisj with ⟨hc, hl⟩ | ⟨hcm, _, _, _⟩
        · rw [hc, hl, hin_ids, hin_lens]
          exact ⟨rfl, rfl⟩
        · exact absurd hcm hinne
      · rcases hdisj with ⟨hc, _⟩ | ⟨_, _, hl, _⟩
        · rw [hc, hin_ids, hm1] at hne2
          exact absurd rfl hne2
        · exact hl
      · rcases hdisj with ⟨_, hl⟩ | ⟨_, hcp, _, _⟩
        · rw [hl, hin_lens]
        · rw [heqm] at hcp
          omega

/-- C2 counterexample: the current keypoint matches the previous one (same
pixel, same descriptor) but its score 5 is below both admission floors, so
it is rejected: it ends the call with track id `-1` yet track length 1,
refuting `current_track_lengths[j] > 0 iff current.track_ids[j] != -1` and
"unaccepted current keypoints retain -1 and length 0". -/
theorem addFrame_unaccepted_match_length_cex :
    matchFeatures (planeCamera 16 16) Mat3.identity curFrameWeak prevFrameA = [(0, 0)] ∧
    addFrame cfgA (planeCamera 16 16) stateA curFrameWeak Mat3.identity
      = .ok { currentTrackIds := [-1]
              previousTrackIds := [-1]
              newState := { previousFramePtr := some ⟨1, [(4, 4)], [[0]], 1, [5], [-1]⟩
                            previousTrackLengths := [1]
                            currentTrackId := 0 } } ∧
    ¬ (0 < ([1] : List ℕ).getD 0 0 ↔ ([-1] : List ℤ).getD 0 0 ≠ -1) := by decide

/-- Witness for C2's amended theorem: the accepted variant of the same
scenario (score 50), applied at keypoint 0. -/
theorem addFrame_track_length_invariant_amended_witness :
    (stateA.previousFramePtr = some prevFrameA ∧ 0 ≤ stateA.currentTrackId ∧
     curFrameStrong.keypoints.length ≠ 0 ∧
     addFrame cfgA (planeCamera 16 16) stateA curFrameStrong Mat3.identity
       = .ok strongResult ∧ 0 < curFrameStrong.keypoints.length) ∧
    ((0 < strongResult.newState.previousTrackLengths.getD 0 0
      ↔ ∃ m ∈ matchFeatures (planeCamera 16 16) Mat3.identity curFrameStrong prevFrameA,
          m.2 = 0) ∧
    ((∀ m ∈ matchFeatures (planeCamera 16 16) Mat3.identity curFrameStrong prevFrameA,
        m.2 ≠ 0) →
      strongResult.currentTrackIds.getD 0 0 = -1 ∧
      strongResult.newState.previousTrackLengths.getD 0 0 = 0) ∧
    (strongResult.currentTrackIds.getD 0 0 ≠ -1 →
      0 < strongResult.newState.previousTrackLengths.getD 0 0) ∧
    (∀ m, ((matchFeatures (planeCamera 16 16) Mat3.identity curFrameStrong
          prevFrameA).filter (fun x => decide (x.2 = 0))).getLast? = some m →
      (0 ≤ prevFrameA.trackIds.getD m.1 (-1) →
        strongResult.currentTrackIds.getD 0 0 = prevFrameA.trackIds.getD m.1 (-1) ∧
        strongResult.newState.previousTrackLengths.getD 0 0
          = stateA.previousTrackLengths.getD m.1 0 + 1) ∧
      (prevFrameA.trackIds.getD m.1 (-1) = -1 →
        strongResult.currentTrackIds.getD 0 0 ≠ -1 →
        strongResult.newState.previousTrackLengths.getD 0 0 = 2) ∧
      (prevFrameA.trackIds.getD m.1 (-1) = -1 →
        strongResult.currentTrackIds.getD 0 0 = -1 →
        strongResult.newState.previousTrackLengths.getD 0 0
          = stateA.previousTrackLengths.getD m.1 0 + 1))) :=
  ⟨⟨rfl, by decide, by decide, by decide, by decide⟩,
   addFrame_track_length_invariant_amended cfgA (planeCamera 16 16) stateA
     curFrameStrong Mat3.identity prevFrameA strongResult 0
     rfl (by decide) (by decide) (by decide) (by decide)⟩

/-! ## C1: characterization of the two-pass window search -/

theorem candScore_eq (descs : List (List ℕ)) (pd : List ℕ) (c : KeypointAndIndex) :
    descriptorScore pd (descs.getD c.index []) = candScore descs pd c := rfl

theorem le_foldl_max (f : KeypointAndIndex → ℤ) :
    ∀ (l : List KeypointAndIndex) (i : ℤ),
      i ≤ l.foldl (fun m c => max m (f c)) i := by
  intro l
  induction l with
  | nil => intro i; exact le_refl i
  | cons c t ih =>
    intro i
    rw [List.foldl_cons]
    exact le_trans (le_max_left i (f c)) (ih (max i (f c)))

theorem foldl_max_mem_le (f : KeypointAndIndex → ℤ) :
    ∀ (l : List KeypointAndIndex) (i : ℤ), ∀ c ∈ l, f c ≤ l.foldl (fun m c => max m (f c)) i := by
  intro l
  induction l with
  | nil => intro i c hc; exact absurd hc (List.not_mem_nil c)
  | cons a t ih =>
    intro i c hc
    rw [List.foldl_cons]
    rcases List.mem_cons.mp hc with h | h
    · subst h
      exact le_trans (le_max_right i (f c)) (le_foldl_max f t (max i (f c)))
    · exact ih (max i (f a)) c h

theorem foldl_max_le (f : KeypointAndIndex → ℤ) :
    ∀ (l : List KeypointAndIndex) (i j : ℤ), i ≤ j → (∀ c ∈ l, f c ≤ j) →
      l.foldl (fun m c => max m (f c)) i ≤ j := by
  intro l
  induction l with
  | nil => intro i j hij _; exact hij
  | cons a t ih =>
    intro i j hij hl
    rw [List.foldl_cons]
    exact ih (max i (f a)) j (max_le hij (hl a (List.mem_cons_self a t)))
      (fun c hc => hl c (List.mem_cons_of_mem a hc))

theorem foldl_max_attained (f : KeypointAndIndex → ℤ) :
    ∀ (l : List KeypointAndIndex) (i : ℤ),
      l.foldl (fun m c => max m (f c)) i = i
      ∨ ∃ c ∈ l, l.foldl (fun m c => max m (f c)) i = f c := by
  intro l
  induction l with
  | nil => intro i; exact Or.inl rfl
  | cons a t ih =>
    intro i
    rw [List.foldl_cons]
    rcases ih (max i (f a)) with h | ⟨c, hc, he⟩
    · by_cases hfa : f a ≤ i
      · exact Or.inl (h.trans (max_eq_left hfa))
      · exact Or.inr ⟨a, List.mem_cons_self a t, h.trans (max_eq_right (le_of_not_le hfa))⟩
    · exact Or.inr ⟨c, List.mem_cons_of_mem a hc, he⟩

theorem base_le_bestWindowScore (descs : List (List ℕ)) (pd : List ℕ)
    (l : List KeypointAndIndex) :
    512 - kMatchingThresholdBits ≤ bestWindowScore descs pd l := by
  rw [bestWindowScore]
  exact le_foldl_max _ l _

theorem candScore_le_bestWindowScore (descs : List (List ℕ)) (pd : List ℕ)
    (l : List KeypointAndIndex) (c : KeypointAndIndex) (hc : c ∈ l) :
    candScore descs pd c ≤ bestWindowScore descs pd l := by
  rw [bestWindowScore]
  exact foldl_max_mem_le _ l _ c hc

theorem bestWindowScore_attained (descs : List (List ℕ)) (pd : List ℕ)
    (l : List KeypointAndIndex)
    (h : 512 - kMatchingThresholdBits < bestWindowScore descs pd l) :
    ∃ c ∈ l, candScore descs pd c = bestWindowScore descs pd l := by
  rcases foldl_max_attained (candScore descs pd) l (512 - kMatchingThresholdBits) with h0 | ⟨c, hc, he⟩
  · exfalso
    rw [bestWindowScore, h0] at h
    exact lt_irrefl _ h
  · exact ⟨c, hc, by rw [bestWindowScore, he]⟩

theorem bestWindowScore_append (descs : List (List ℕ)) (pd : List ℕ)
    (w l : List KeypointAndIndex) :
    bestWindowScore descs pd (w ++ l)
      = l.foldl (fun m c => max m (candScore descs pd c)) (bestWindowScore descs pd w) := by
  rw [bestWindowScore, bestWindowScore, List.foldl_append]

theorem bestWindowScore_append_one (descs : List (List ℕ)) (pd : List ℕ)
    (w : List KeypointAndIndex) (c : KeypointAndIndex) :
    bestWindowScore descs pd (w ++ [c])
      = max (bestWindowScore descs pd w) (candScore descs pd c) := by
  rw [bestWindowScore_append, List.foldl_cons, List.foldl_nil]

theorem firstBestCandidate_isSome (descs : List (List ℕ)) (pd : List ℕ)
    (l : List KeypointAndIndex) :
    (firstBestCandidate descs pd l).isSome = true
      ↔ 512 - kMatchingThresholdBits < bestWindowScore descs pd l := by
  rw [firstBestCandidate]
  by_cases h : 512 - kMatchingThresholdBits < bestWindowScore descs pd l
  · rw [if_pos h]
    refine ⟨fun _ => h, fun _ => ?_⟩
    rcases bestWindowScore_attained descs pd l h with ⟨c, hc, he⟩
    exact List.find?_isSome.mpr ⟨c, hc, decide_eq_true he⟩
  · rw [if_neg h]
    simp [h]

theorem find?_append_of_none (p : KeypointAndIndex → Bool)
    (X L : List KeypointAndIndex) (h : X.find? p = none) :
    (X ++ L).find? p = L.find? p := by
  rw [List.find?_append, h, Option.none_or]

theorem find?_append_left_isSome (p : KeypointAndIndex → Bool)
    (X L : List KeypointAndIndex) (h : (X.find? p).isSome = true) :
    (X ++ L).find? p = X.find? p := by
  rcases Option.isSome_iff_exists.mp h with ⟨a, ha⟩
  rw [List.find?_append, ha]
  rfl

theorem bestWindowScore_append_left_low (descs : List (List ℕ)) (pd : List ℕ)
    (X L : List KeypointAndIndex)
    (hX : ∀ c ∈ X, candScore descs pd c ≤ 512 - kMatchingThresholdBits) :
    bestWindowScore descs pd (X ++ L) = bestWindowScore descs pd L := by
  have hbase : bestWindowScore descs pd X = 512 - kMatchingThresholdBits :=
    le_antisymm (by rw [bestWindowScore]; exact foldl_max_le _ X _ _ (le_refl _) hX)
      (base_le_bestWindowScore descs pd X)
  rw [bestWindowScore_append, hbase, bestWindowScore]

theorem firstBestCandidate_append_left_low (descs : List (List ℕ)) (pd : List ℕ)
    (X L : List KeypointAndIndex)
    (hX : ∀ c ∈ X, candScore descs pd c ≤ 512 - kMatchingThresholdBits) :
    firstBestCandidate descs pd (X ++ L) = firstBestCandidate descs pd L := by
  rw [firstBestCandidate, firstBestCandidate, bestWindowScore_append_left_low descs pd X L hX]
  by_cases h : 512 - kMatchingThresholdBits < bestWindowScore descs pd L
  · rw [if_pos h, if_pos h]
    apply find?_append_of_none
    rw [List.find?_eq_none]
    intro c hc
    simp only [decide_eq_true_eq]
    intro he
    rw [← he] at h
    exact absurd h (not_lt.mpr (hX c hc))
  · rw [if_neg h, if_neg h]

theorem foldl_max_filter_eq (f : KeypointAndIndex → ℤ) (keep : KeypointAndIndex → Bool)
    (b : ℤ) :
    ∀ (l : List KeypointAndIndex) (i : ℤ), b ≤ i →
      (∀ c ∈ l, keep c = false → f c ≤ b) →
      (l.filter keep).foldl (fun m c => max m (f c)) i
        = l.foldl (fun m c => max m (f c)) i := by
  intro l
  induction l with
  | nil => intro i _ _; rfl
  | cons c t ih =>
    intro i hbi hlow
    cases hk : keep c with
    | true =>
      rw [List.filter_cons_of_pos hk]
      rw [List.foldl_cons, List.foldl_cons]
      exact ih (max i (f c)) (le_trans hbi (le_max_left i (f c)))
        (fun x hx => hlow x (List.mem_cons_of_mem c hx))
    | false =>
      rw [List.filter_cons_of_neg (by simp [hk])]
      rw [List.foldl_cons, max_eq_left (le_trans (hlow c (List.mem_cons_self c t) hk) hbi)]
      exact ih i hbi (fun x hx => hlow x (List.mem_cons_of_mem c hx))

theorem bestWindowScore_filter_low (descs : List (List ℕ)) (pd : List ℕ)
    (keep : KeypointAndIndex → Bool) (L : List KeypointAndIndex)
    (hlow : ∀ c ∈ L, keep c = false → candScore descs pd c ≤ 512 - kMatchingThresholdBits) :
    bestWindowScore descs pd (L.filter keep) = bestWindowScore descs pd L := by
  rw [bestWindowScore, bestWindowScore]
  exact foldl_max_filter_eq _ keep _ L _ (le_refl _) hlow

theorem find?_filter_eq_of_dropped_fail (p keep : KeypointAndIndex → Bool) :
    ∀ (L : List KeypointAndIndex), (∀ c ∈ L, keep c = false → p c = false) →
      (L.filter keep).find? p = L.find? p := by
  intro L
  induction L with
  | nil => intro _; rfl
  | cons c t ih =>
    intro hlow
    cases hk : keep c with
    | true =>
      rw [List.filter_cons_of_pos hk]
      cases hpc : p c with
      | true =>
        rw [List.find?_cons_of_pos t hpc, List.find?_cons_of_pos (t.filter keep) hpc]
      | false =>
        rw [List.find?_cons_of_neg t (by simp [hpc]),
          List.find?_cons_of_neg (t.filter keep) (by simp [hpc])]
        exact ih (fun x hx => hlow x (List.mem_cons_of_mem c hx))
    | false =>
      rw [List.filter_cons_of_neg (by simp [hk]),
        List.find?_cons_of_neg t (by simp [hlow c (List.mem_cons_self c t) hk]),
        ih (fun x hx => hlow x (List.mem_cons_of_mem c hx))]

theorem firstBestCandidate_filter_low (descs : List (List ℕ)) (pd : List ℕ)
    (keep : KeypointAndIndex → Bool) (L : List KeypointAndIndex)
    (hlow : ∀ c ∈ L, keep c = false → candScore descs pd c ≤ 512 - kMatchingThresholdBits) :
    firstBestCandidate descs pd (L.filter keep) = firstBestCandidate descs pd L := by
  rw [firstBestCandidate, firstBestCandidate, bestWindowScore_filter_low descs pd keep L hlow]
  by_cases h : 512 - kMatchingThresholdBits < bestWindowScore descs pd L
  · rw [if_pos h, if_pos h]
    apply find?_filter_eq_of_dropped_fail
    intro c hc hk
    rw [decide_eq_false_iff_not]
    intro he
    rw [← he] at h
    exact absurd h (not_lt.mpr (hlow c hc hk))
  · rw [if_neg h, if_neg h]

theorem xWindowFilter_filter_comm (lo hi : ℤ) (keep : KeypointAndIndex → Bool)
    (L : List KeypointAndIndex) :
    xWindowFilter lo hi (L.filter keep) = (xWindowFilter lo hi L).filter keep := by
  rw [xWindowFilter, xWindowFilter, List.filter_filter, List.filter_filter]
  apply List.filter_congr
  intro a _
  rw [Bool.and_comm]

theorem searchStep_foldl_invariant (descs : List (List ℕ)) (pd : List ℕ) (lo hi : ℤ) :
    ∀ (l w : List KeypointAndIndex) (s : SearchState),
      s.bestScore = bestWindowScore descs pd w →
      s.found = decide (512 - kMatchingThresholdBits < bestWindowScore descs pd w) →
      s.itBest = firstBestCandidate descs pd w →
      s.processed = w.reverse.map (fun x => x.index) →
      (l.foldl (searchStep descs pd false lo hi) s).bestScore
          = bestWindowScore descs pd (w ++ xWindowFilter lo hi l)
      ∧ (l.foldl (searchStep descs pd false lo hi) s).found
          = decide (512 - kMatchingThresholdBits
              < bestWindowScore descs pd (w ++ xWindowFilter lo hi l))
      ∧ (l.foldl (searchStep descs pd false lo hi) s).itBest
          = firstBestCandidate descs pd (w ++ xWindowFilter lo hi l)
      ∧ (l.foldl (searchStep descs pd false lo hi) s).processed
          = (w ++ xWindowFilter lo hi l).reverse.map (fun x => x.index) := by
  intro l
  induction l with
  | nil =>
    intro w s h1 h2 h3 h4
    rw [List.foldl_nil]
    have hfe : xWindowFilter lo hi [] = [] := rfl
    rw [hfe, List.append_nil]
    exact ⟨h1, h2, h3, h4⟩
  | cons c t ih =>
    intro w s h1 h2 h3 h4
    rw [List.foldl_cons]
    by_cases hx : c.measurement.1 < (lo : ℚ) ∨ (hi : ℚ) < c.measurement.1
    · have hstep : searchStep descs pd false lo hi s c = s := by
        rw [searchStep, if_neg (fun h => Bool.false_ne_true h.1), if_pos hx]
      have hfil : xWindowFilter lo hi (c :: t) = xWindowFilter lo hi t := by
        rw [xWindowFilter, xWindowFilter, List.filter_cons_of_neg (by simp [hx])]
      rw [hstep, hfil]
      exact ih w s h1 h2 h3 h4
    · have hfil : xWindowFilter lo hi (c :: t) = c :: xWindowFilter lo hi t := by
        rw [xWindowFilter, xWindowFilter, List.filter_cons_of_pos (by simp [hx])]
      have happ : w ++ (c :: xWindowFilter lo hi t)
          = (w ++ [c]) ++ xWindowFilter lo hi t := by
        rw [List.append_assoc, List.singleton_append]
      rw [hfil, happ]
      set s' := searchStep descs pd false lo hi s c with hs'
      have hstep : s' = if s.bestScore < candScore descs pd c
          then (⟨true, candScore descs pd c, some c, c.index :: s.processed⟩ : SearchState)
          else ⟨s.found, s.bestScore, s.itBest, c.index :: s.processed⟩ := by
        rw [hs', searchStep, if_neg (fun h => Bool.false_ne_true h.1), if_neg hx]
        dsimp only
        by_cases himp : s.bestScore < descriptorScore pd (descs.getD c.index [])
        · rw [if_pos himp, if_pos (show s.bestScore < candScore descs pd c from himp)]
          rfl
        · rw [if_neg himp, if_neg (show ¬s.bestScore < candScore descs pd c from himp)]
      have hbw : bestWindowScore descs pd (w ++ [c])
          = max (bestWindowScore descs pd w) (candScore descs pd c) :=
        bestWindowScore_append_one descs pd w c
      by_cases himp : s.bestScore < candScore descs pd c
      · have hwlt : bestWindowScore descs pd w < candScore descs pd c := h1 ▸ himp
        have hmax : bestWindowScore descs pd (w ++ [c]) = candScore descs pd c := by
          rw [hbw, max_eq_right (le_of_lt hwlt)]
        have hgt : 512 - kMatchingThresholdBits < bestWindowScore descs pd (w ++ [c]) := by
          rw [hmax]
          exact lt_of_le_of_lt (base_le_bestWindowScore descs pd w) hwlt
        have hfb : firstBestCandidate descs pd (w ++ [c]) = some c := by
          rw [firstBestCandidate, if_pos hgt]
          have hwnone : w.find? (fun x => decide (candScore descs pd x
              = bestWindowScore descs pd (w ++ [c]))) = none := by
            rw [List.find?_eq_none]
            intro x hxw
            simp only [decide_eq_true_eq]
            intro he
            have hle := candScore_le_bestWindowScore descs pd w x hxw
            rw [he, hmax] at hle
            exact absurd hwlt (not_lt.mpr hle)
          rw [find?_append_of_none _ w [c] hwnone]
          exact List.find?_cons_of_pos []
            (show (fun x => decide (candScore descs pd x
                = bestWindowScore descs pd (w ++ [c]))) c = true
              from decide_eq_true hmax.symm)
        have inv1 : s'.bestScore = bestWindowScore descs pd (w ++ [c]) := by
          rw [hstep, if_pos himp]
          exact hmax.symm
        have inv2 : s'.found
            = decide (512 - kMatchingThresholdBits < bestWindowScore descs pd (w ++ [c])) := by
          rw [hstep, if_pos himp]
          exact (decide_eq_true hgt).symm
        have inv3 : s'.itBest = firstBestCandidate descs pd (w ++ [c]) := by
          rw [hstep, if_pos himp, hfb]
        have inv4 : s'.processed = (w ++ [c]).reverse.map (fun x => x.index) := by
          rw [hstep, if_pos himp]
          show c.index :: s.processed = (w ++ [c]).reverse.map (fun x => x.index)
          rw [h4]
          simp [List.reverse_append]
        exact ih (w ++ [c]) s' inv1 inv2 inv3 inv4
      · have hle : candScore descs pd c ≤ bestWindowScore descs pd w := h1 ▸ not_lt.mp himp
        have hmax : bestWindowScore descs pd (w ++ [c]) = bestWindowScore descs pd w := by
          rw [hbw, max_eq_left hle]
        have hfb : firstBestCandidate descs pd (w ++ [c])
            = firstBestCandidate descs pd w := by
          rw [firstBestCandidate, firstBestCandidate, hmax]
          by_cases hgt : 512 - kMatchingThresholdBits < bestWindowScore descs pd w
          · rw [if_pos hgt, if_pos hgt]
            rcases bestWindowScore_attained descs pd w hgt with ⟨x, hxw, he⟩
            exact find?_append_left_isSome _ w [c]
              (List.find?_isSome.mpr ⟨x, hxw, decide_eq_true he⟩)
          · rw [if_neg hgt, if_neg hgt]
        have inv1 : s'.bestScore = bestWindowScore descs pd (w ++ [c]) := by
          rw [hstep, if_neg himp, hmax]
          exact h1
        have inv2 : s'.found
            = decide (512 - kMatchingThresholdBits < bestWindowScore descs pd (w ++ [c])) := by
          rw [hstep, if_neg himp, hmax]
          exact h2
        have inv3 : s'.itBest = firstBestCandidate descs pd (w ++ [c]) := by
          rw [hstep, if_neg himp, hfb]
          exact h3
        have inv4 : s'.processed = (w ++ [c]).reverse.map (fun x => x.index) := by
          rw [hstep, if_neg himp]
          show c.index :: s.processed = (w ++ [c]).reverse.map (fun x => x.index)
          rw [h4]
          simp [List.reverse_append]
        exact ih (w ++ [c]) s' inv1 inv2 inv3 inv4

theorem searchStep_processed_cases (descs : List (List ℕ)) (pd : List ℕ)
    (skip : Bool) (lo hi : ℤ) (s : SearchState) (c : KeypointAndIndex) :
    (searchStep descs pd skip lo hi s c).processed = s.processed
    ∨ (searchStep descs pd skip lo hi s c).processed = c.index :: s.processed := by
  rw [searchStep]
  dsimp only
  split_ifs with h1 h2 h3
  · exact Or.inl rfl
  · exact Or.inl rfl
  · exact Or.inr rfl
  · exact Or.inr rfl

theorem searchStep_skip_foldl (descs : List (List ℕ)) (pd : List ℕ) (lo hi : ℤ) :
    ∀ (l : List KeypointAndIndex) (s : SearchState),
      (l.map (fun c => c.index)).Nodup →
      l.foldl (searchStep descs pd true lo hi) s
        = (l.filter (fun c => decide (¬c.index ∈ s.processed))).foldl
            (searchStep descs pd false lo hi) s := by
  intro l
  induction l with
  | nil => intro s _; rfl
  | cons c t ih =>
    intro s hnd
    rw [List.map_cons, List.nodup_cons] at hnd
    by_cases hmem : c.index ∈ s.processed
    · have hstep : searchStep descs pd true lo hi s c = s := by
        rw [searchStep, if_pos ⟨rfl, hmem⟩]
      rw [List.foldl_cons, hstep, List.filter_cons_of_neg (by simp [hmem])]
      exact ih s hnd.2
    · have hstep : searchStep descs pd true lo hi s c
          = searchStep descs pd false lo hi s c := by
        rw [searchStep, searchStep]
        dsimp only
        split_ifs <;> simp_all
      rw [List.foldl_cons, hstep, List.filter_cons_of_pos (by simp [hmem]), List.foldl_cons]
      have hproc := searchStep_processed_cases descs pd false lo hi s c
      set s' := searchStep descs pd false lo hi s c with hs'
      have hfil : t.filter (fun x => decide (¬x.index ∈ s'.processed))
          = t.filter (fun x => decide (¬x.index ∈ s.processed)) := by
        apply List.filter_congr
        intro x hx
        have hne : x.index ≠ c.index := by
          intro he
          exact hnd.1 (he ▸ List.mem_map_of_mem (fun y => y.index) hx)
        rcases hproc with h | h
        · rw [h]
        · rw [h]
          simp [List.mem_cons, hne]
      rw [ih s' hnd.2, hfil]

theorem sortKeypointsByY_index_nodup (kps : List (ℚ × ℚ)) :
    ((sortKeypointsByY kps).map (fun c => c.index)).Nodup := by
  rw [sortKeypointsByY]
  have hperm := List.perm_insertionSort
    (fun a b : KeypointAndIndex => a.measurement.2 ≤ b.measurement.2)
    (kps.enum.map fun p => KeypointAndIndex.mk p.2 p.1)
  rw [(hperm.map (fun c => c.index)).nodup_iff]
  rw [List.map_map]
  have : ((fun c : KeypointAndIndex => c.index) ∘ fun p : ℕ × (ℚ × ℚ) =>
      KeypointAndIndex.mk p.2 p.1) = Prod.fst := rfl
  rw [this, List.enum_map_fst]
  exact List.nodup_range kps.length

theorem lutSlice_index_nodup (kps : List (ℚ × ℚ)) (lut : List ℕ) (top bot : ℕ) :
    ((lutSlice (sortKeypointsByY kps) lut top bot).map (fun c => c.index)).Nodup := by
  have hsub : List.Sublist (lutSlice (sortKeypointsByY kps) lut top bot)
      (sortKeypointsByY kps) :=
    (List.drop_sublist _ _).trans (List.take_sublist _ _)
  exact (sortKeypointsByY_index_nodup kps).sublist (hsub.map _)

theorem cppClamp_mono (lower upper : ℤ) {a b : ℤ} (h : a ≤ b) :
    cppClamp lower upper a ≤ cppClamp lower upper b := by
  rw [cppClamp, cppClamp]
  exact min_le_min (max_le_max h (le_refl lower)) (le_refl upper)

theorem mem_drop_take (l : List KeypointAndIndex) (a b : ℕ) (e : KeypointAndIndex) :
    e ∈ (l.take b).drop a ↔ ∃ p : ℕ, a ≤ p ∧ p < b ∧ l[p]? = some e := by
  rw [List.mem_iff_getElem?]
  constructor
  · rintro ⟨q, hq⟩
    rw [List.getElem?_drop, List.getElem?_take] at hq
    by_cases hlt : a + q < b
    · rw [if_pos hlt] at hq
      exact ⟨a + q, Nat.le_add_right a q, hlt, hq⟩
    · rw [if_neg hlt] at hq
      exact Option.noConfusion hq
  · rintro ⟨p, hap, hpb, hpe⟩
    refine ⟨p - a, ?_⟩
    rw [List.getElem?_drop, List.getElem?_take]
    rw [show a + (p - a) = p from by omega, if_pos hpb]
    exact hpe

theorem lutSlice_mem_mono (sorted : List KeypointAndIndex) (lut : List ℕ)
    (t1 b1 t2 b2 : ℕ) (ht : lut.getD t2 0 ≤ lut.getD t1 0)
    (hb : lut.getD b1 0 ≤ lut.getD b2 0) :
    ∀ e ∈ lutSlice sorted lut t1 b1, e ∈ lutSlice sorted lut t2 b2 := by
  intro e he
  rw [lutSlice, mem_drop_take] at he
  rw [lutSlice, mem_drop_take]
  rcases he with ⟨p, h1, h2, h3⟩
  exact ⟨p, le_trans ht h1, lt_of_lt_of_le h2 hb, h3⟩

theorem cornerRowLUT_getD_mono (l : List KeypointAndIndex)
    (hs : l.Pairwise (fun a b => a.measurement.2 ≤ b.measurement.2))
    (imageHeight y1 y2 : ℕ) (h12 : y1 ≤ y2) (hy2 : y2 < imageHeight) :
    (cornerRowLUT l imageHeight).getD y1 0 ≤ (cornerRowLUT l imageHeight).getD y2 0 := by
  rw [cornerRowLUT_getD l hs imageHeight y1 (lt_of_le_of_lt h12 hy2),
    cornerRowLUT_getD l hs imageHeight y2 hy2]
  apply List.countP_mono_left
  intro e _ he
  simp only [decide_eq_true_eq] at he ⊢
  exact lt_of_lt_of_le he (by exact_mod_cast h12)

theorem searchBoundsFor_nesting (H : ℕ) (hH : 0 < H) (pred : ℚ × ℚ) :
    (searchBoundsFor H pred).nearTop ≤ (searchBoundsFor H pred).nearestTop
    ∧ (searchBoundsFor H pred).nearestBottom ≤ (searchBoundsFor H pred).nearBottom
    ∧ (searchBoundsFor H pred).nearestTop < H
    ∧ (searchBoundsFor H pred).nearestBottom < H
    ∧ (searchBoundsFor H pred).nearTop < H
    ∧ (searchBoundsFor H pred).nearBottom < H
    ∧ (searchBoundsFor H pred).boundLeftNear ≤ (searchBoundsFor H pred).boundLeftNearest
    ∧ (searchBoundsFor H pred).boundRightNearest ≤ (searchBoundsFor H pred).boundRightNear := by
  rw [searchBoundsFor]
  dsimp only
  have hrad : pred.2 + 1/2 - searchRadius ≤ pred.2 + 1/2 - minSearchRadius := by
    rw [searchRadius, minSearchRadius]
    linarith
  have hrad2 : pred.2 + 1/2 + minSearchRadius ≤ pred.2 + 1/2 + searchRadius := by
    rw [searchRadius, minSearchRadius]
    linarith
  have hxl : pred.1 - searchRadius ≤ pred.1 - minSearchRadius := by
    rw [searchRadius, minSearchRadius]
    linarith
  have hxr : pred.1 + minSearchRadius ≤ pred.1 + searchRadius := by
    rw [searchRadius, minSearchRadius]
    linarith
  have hrow : ∀ x : ℤ, (min x ((H : ℤ) - 1)).toNat < H := by
    intro x
    have h1 := Int.toNat_le_toNat (min_le_right x ((H : ℤ) - 1))
    omega
  refine ⟨?_, ?_, hrow _, hrow _, hrow _, hrow _, rtrunc_mono hxl, rtrunc_mono hxr⟩
  · exact Int.toNat_le_toNat (min_le_min (cppClamp_mono _ _ (rtrunc_mono hrad)) (le_refl _))
  · exact Int.toNat_le_toNat
      (min_le_min (add_le_add_right (cppClamp_mono _ _ (rtrunc_mono hrad2)) 1) (le_refl _))

theorem smallWindow_subset_largeWindow (kps : List (ℚ × ℚ)) (H : ℕ) (hH : 0 < H)
    (pred : ℚ × ℚ) :
    ∀ c ∈ smallWindowOf (sortKeypointsByY kps) (cornerRowLUT (sortKeypointsByY kps) H) H pred,
      c ∈ largeWindowOf (sortKeypointsByY kps) (cornerRowLUT (sortKeypointsByY kps) H) H pred := by
  intro c hc
  obtain ⟨hnt, hnb, h1, h2, h3, h4, hxl, hxr⟩ := searchBoundsFor_nesting H hH pred
  rw [smallWindowOf] at hc
  rw [largeWindowOf]
  rw [xWindowFilter, List.mem_filter] at hc
  rw [xWindowFilter, List.mem_filter]
  constructor
  · apply lutSlice_mem_mono _ _ _ _ _ _ ?_ ?_ c hc.1
    · exact cornerRowLUT_getD_mono _ (sortKeypointsByY_sorted kps) H _ _ hnt h1
    · exact cornerRowLUT_getD_mono _ (sortKeypointsByY_sorted kps) H _ _ hnb h4
  · have hin := of_decide_eq_true hc.2
    apply decide_eq_true
    push_neg at hin ⊢
    constructor
    · exact le_trans (by exact_mod_cast hxl) hin.1
    · exact le_trans hin.2 (by exact_mod_cast hxr)

theorem bestWindowScore_gt_iff_hamming (descs : List (List ℕ)) (pd : List ℕ)
    (lw : List KeypointAndIndex) :
    (512 - kMatchingThresholdBits < bestWindowScore descs pd lw)
      ↔ ∃ c ∈ lw, hammingDistance512 pd (descs.getD c.index []) < 120 := by
  constructor
  · intro h
    rcases bestWindowScore_attained descs pd lw h with ⟨c, hc, he⟩
    refine ⟨c, hc, ?_⟩
    have h2 : 512 - kMatchingThresholdBits < candScore descs pd c := by
      rw [he]
      exact h
    rw [candScore, descriptorScore, kMatchingThresholdBits] at h2
    omega
  · rintro ⟨c, hc, hham⟩
    have h1 : 512 - kMatchingThresholdBits < candScore descs pd c := by
      rw [candScore, descriptorScore, kMatchingThresholdBits]
      omega
    exact lt_of_lt_of_le h1 (candScore_le_bestWindowScore descs pd lw c hc)

theorem matchOneKeypoint_eq_spec (kps : List (ℚ × ℚ)) (H : ℕ) (hH : 0 < H)
    (descs : List (List ℕ)) (pd : List ℕ) (pred : ℚ × ℚ) :
    (matchOneKeypoint (sortKeypointsByY kps) (cornerRowLUT (sortKeypointsByY kps) H)
        H descs pd pred).found
      = decide (512 - kMatchingThresholdBits < bestWindowScore descs pd
          (largeWindowOf (sortKeypointsByY kps) (cornerRowLUT (sortKeypointsByY kps) H) H pred))
    ∧ (matchOneKeypoint (sortKeypointsByY kps) (cornerRowLUT (sortKeypointsByY kps) H)
        H descs pd pred).itBest
      = twoTierSelect descs pd
          (smallWindowOf (sortKeypointsByY kps) (cornerRowLUT (sortKeypointsByY kps) H) H pred)
          (largeWindowOf (sortKeypointsByY kps) (cornerRowLUT (sortKeypointsByY kps) H) H pred) := by
  set sorted := sortKeypointsByY kps with hsorted
  set lut := cornerRowLUT sorted H with hlut
  rw [matchOneKeypoint]
  set b := searchBoundsFor H pred with hbb
  set s1 := (lutSlice sorted lut b.nearestTop b.nearestBottom).foldl
      (searchStep descs pd false b.boundLeftNearest b.boundRightNearest)
      (⟨false, 512 - kMatchingThresholdBits, none, []⟩ : SearchState) with hs1
  have hsw : smallWindowOf sorted lut H pred
      = xWindowFilter b.boundLeftNearest b.boundRightNearest
          (lutSlice sorted lut b.nearestTop b.nearestBottom) := by
    rw [smallWindowOf]
  have hlw : largeWindowOf sorted lut H pred
      = xWindowFilter b.boundLeftNear b.boundRightNear
          (lutSlice sorted lut b.nearTop b.nearBottom) := by
    rw [largeWindowOf]
  have hinv := searchStep_foldl_invariant descs pd b.boundLeftNearest b.boundRightNearest
    (lutSlice sorted lut b.nearestTop b.nearestBottom) []
    ⟨false, 512 - kMatchingThresholdBits, none, []⟩
    rfl (by simp [bestWindowScore]) (by simp [firstBestCandidate, bestWindowScore]) rfl
  rw [← hs1] at hinv
  simp only [List.nil_append] at hinv
  rw [← hsw] at hinv
  obtain ⟨i1, i2, i3, i4⟩ := hinv
  by_cases hf : s1.found = true
  · rw [if_pos hf]
    have hgt_sw : 512 - kMatchingThresholdBits
        < bestWindowScore descs pd (smallWindowOf sorted lut H pred) := by
      rw [hf] at i2
      exact of_decide_eq_true i2.symm
    have hgt_lw : 512 - kMatchingThresholdBits
        < bestWindowScore descs pd (largeWindowOf sorted lut H pred) := by
      rcases bestWindowScore_attained descs pd _ hgt_sw with ⟨x, hx, he⟩
      calc 512 - kMatchingThresholdBits
          < bestWindowScore descs pd (smallWindowOf sorted lut H pred) := hgt_sw
        _ = candScore descs pd x := he.symm
        _ ≤ bestWindowScore descs pd (largeWindowOf sorted lut H pred) :=
            candScore_le_bestWindowScore descs pd _ x
              (smallWindow_subset_largeWindow kps H hH pred x hx)
    constructor
    · rw [hf]
      exact (decide_eq_true hgt_lw).symm
    · rcases Option.isSome_iff_exists.mp
        ((firstBestCandidate_isSome descs pd _).mpr hgt_sw) with ⟨c0, hc0⟩
      rw [i3, hc0, twoTierSelect, hc0]
  · rw [if_neg hf]
    have hff : s1.found = false := by
      cases hb0 : s1.found with
      | false => rfl
      | true => exact absurd hb0 hf
    have hnsw : ¬(512 - kMatchingThresholdBits
        < bestWindowScore descs pd (smallWindowOf sorted lut H pred)) := by
      intro hcon
      rw [i2, decide_eq_true hcon] at hff
      exact Bool.noConfusion hff
    have hsw_eq : bestWindowScore descs pd (smallWindowOf sorted lut H pred)
        = 512 - kMatchingThresholdBits :=
      le_antisymm (not_lt.mp hnsw) (base_le_bestWindowScore descs pd _)
    have hswlow : ∀ x ∈ smallWindowOf sorted lut H pred,
        candScore descs pd x ≤ 512 - kMatchingThresholdBits := by
      intro x hx
      rw [← hsw_eq]
      exact candScore_le_bestWindowScore descs pd _ x hx
    have hnodup : ((lutSlice sorted lut b.nearTop b.nearBottom).map
        (fun c => c.index)).Nodup := lutSlice_index_nodup kps lut b.nearTop b.nearBottom
    rw [searchStep_skip_foldl descs pd b.boundLeftNear b.boundRightNear
      (lutSlice sorted lut b.nearTop b.nearBottom) s1 hnodup]
    obtain ⟨j1, j2, j3, j4⟩ := searchStep_foldl_invariant descs pd
      b.boundLeftNear b.boundRightNear
      ((lutSlice sorted lut b.nearTop b.nearBottom).filter
        (fun c => decide (¬c.index ∈ s1.processed)))
      (smallWindowOf sorted lut H pred) s1 i1 i2 i3 i4
    have hw2 : smallWindowOf sorted lut H pred
          ++ xWindowFilter b.boundLeftNear b.boundRightNear
            ((lutSlice sorted lut b.nearTop b.nearBottom).filter
              (fun c => decide (¬c.index ∈ s1.processed)))
        = smallWindowOf sorted lut H pred
          ++ (largeWindowOf sorted lut H pred).filter
            (fun c => decide (¬c.index ∈ s1.processed)) := by
      rw [xWindowFilter_filter_comm, ← hlw]
    rw [hw2] at j2 j3
    have hdroplow : ∀ x ∈ largeWindowOf sorted lut H pred,
        (fun c : KeypointAndIndex => decide (¬c.index ∈ s1.processed)) x = false →
          candScore descs pd x ≤ 512 - kMatchingThresholdBits := by
      intro x hx hxf
      simp only [decide_eq_false_iff_not, not_not] at hxf
      rw [i4] at hxf
      rcases List.mem_map.mp hxf with ⟨y, hy, hyx⟩
      have hy' : y ∈ smallWindowOf sorted lut H pred := List.mem_reverse.mp hy
      have hcs : candScore descs pd x = candScore descs pd y := by
        rw [candScore, candScore, ← hyx]
      rw [hcs]
      exact hswlow y hy'
    have hbw2 : bestWindowScore descs pd (smallWindowOf sorted lut H pred
          ++ (largeWindowOf sorted lut H pred).filter
            (fun c => decide (¬c.index ∈ s1.processed)))
        = bestWindowScore descs pd (largeWindowOf sorted lut H pred) := by
      rw [bestWindowScore_append_left_low descs pd _ _ hswlow,
        bestWindowScore_filter_low descs pd _ _ hdroplow]
    have hfb2 : firstBestCandidate descs pd (smallWindowOf sorted lut H pred
          ++ (largeWindowOf sorted lut H pred).filter
            (fun c => decide (¬c.index ∈ s1.processed)))
        = firstBestCandidate descs pd (largeWindowOf sorted lut H pred) := by
      rw [firstBestCandidate_append_left_low descs pd _ _ hswlow,
        firstBestCandidate_filter_low descs pd _ _ hdroplow]
    have hswnone : firstBestCandidate descs pd (smallWindowOf sorted lut H pred) = none := by
      rw [firstBestCandidate, if_neg hnsw]
    constructor
    · rw [j2, hbw2]
    · rw [j3, hfb2, twoTierSelect, hswnone]

theorem twoTierSelect_isSome_iff (kps : List (ℚ × ℚ)) (H : ℕ) (hH : 0 < H)
    (descs : List (List ℕ)) (pd : List ℕ) (pred : ℚ × ℚ) :
    (twoTierSelect descs pd
        (smallWindowOf (sortKeypointsByY kps) (cornerRowLUT (sortKeypointsByY kps) H) H pred)
        (largeWindowOf (sortKeypointsByY kps)
          (cornerRowLUT (sortKeypointsByY kps) H) H pred)).isSome = true
      ↔ 512 - kMatchingThresholdBits < bestWindowScore descs pd
          (largeWindowOf (sortKeypointsByY kps)
            (cornerRowLUT (sortKeypointsByY kps) H) H pred) := by
  constructor
  · intro hs
    by_cases hsome : (firstBestCandidate descs pd (smallWindowOf (sortKeypointsByY kps)
        (cornerRowLUT (sortKeypointsByY kps) H) H pred)).isSome = true
    · have hbs := (firstBestCandidate_isSome descs pd _).mp hsome
      rcases bestWindowScore_attained descs pd _ hbs with ⟨c1, hc1, he1⟩
      calc 512 - kMatchingThresholdBits
          < bestWindowScore descs pd (smallWindowOf (sortKeypointsByY kps)
              (cornerRowLUT (sortKeypointsByY kps) H) H pred) := hbs
        _ = candScore descs pd c1 := he1.symm
        _ ≤ bestWindowScore descs pd (largeWindowOf (sortKeypointsByY kps)
              (cornerRowLUT (sortKeypointsByY kps) H) H pred) :=
            candScore_le_bestWindowScore descs pd _ c1
              (smallWindow_subset_largeWindow kps H hH pred c1 hc1)
    · have hnone : firstBestCandidate descs pd (smallWindowOf (sortKeypointsByY kps)
          (cornerRowLUT (sortKeypointsByY kps) H) H pred) = none :=
        Option.not_isSome_iff_eq_none.mp hsome
      rw [twoTierSelect, hnone] at hs
      exact (firstBestCandidate_isSome descs pd _).mp hs
  · intro h
    by_cases hsome : (firstBestCandidate descs pd (smallWindowOf (sortKeypointsByY kps)
        (cornerRowLUT (sortKeypointsByY kps) H) H pred)).isSome = true
    · rcases Option.isSome_iff_exists.mp hsome with ⟨c0, hc0⟩
      rw [twoTierSelect, hc0]
      rfl
    · have hnone : firstBestCandidate descs pd (smallWindowOf (sortKeypointsByY kps)
          (cornerRowLUT (sortKeypointsByY kps) H) H pred) = none :=
        Option.not_isSome_iff_eq_none.mp hsome
      rw [twoTierSelect, hnone]
      exact (firstBestCandidate_isSome descs pd _).mpr h

/-- C1: for every previous keypoint `i`, the match search emits `(i, j)` iff
the two-tier selection (best of the small window if the small pass cleared
the threshold, otherwise best of the large window, first-wins tie break in
iteration order) returns the corner of index `j`; and the search emits some
pair for `i` iff some current keypoint inside the large (two-tier) search
window around `i`'s predicted pixel has Hamming distance to `i`'s descriptor
strictly below 120. The large pass is modelled exactly as the source runs it
— only when the small pass found nothing, skipping corners already
processed — and the equivalence shows these skips never change the result. -/
theorem matchFeatures_two_tier_characterization (cam : Camera) (C : Mat3)
    (cur prev : VisualFrame) (hH : 0 < cam.imageHeight) (i j : ℕ) :
    ((i, j) ∈ matchFeatures cam C cur prev ↔
      i < prev.keypoints.length ∧
      ∃ c, twoTierSelect cur.descriptors (prev.descriptors.getD i [])
          (smallWindowOf (sortKeypointsByY cur.keypoints)
            (cornerRowLUT (sortKeypointsByY cur.keypoints) cam.imageHeight) cam.imageHeight
            (predictKeypoint cam C (prev.keypoints.getD i (0, 0))))
          (largeWindowOf (sortKeypointsByY cur.keypoints)
            (cornerRowLUT (sortKeypointsByY cur.keypoints) cam.imageHeight) cam.imageHeight
            (predictKeypoint cam C (prev.keypoints.getD i (0, 0)))) = some c
        ∧ c.index = j)
    ∧ ((∃ j2, (i, j2) ∈ matchFeatures cam C cur prev) ↔
      i < prev.keypoints.length ∧
      ∃ c ∈ largeWindowOf (sortKeypointsByY cur.keypoints)
          (cornerRowLUT (sortKeypointsByY cur.keypoints) cam.imageHeight) cam.imageHeight
          (predictKeypoint cam C (prev.keypoints.getD i (0, 0))),
        hammingDistance512 (prev.descriptors.getD i [])
          (cur.descriptors.getD c.index []) < 120) := by
  have hmem : ∀ i' j' : ℕ, ((i', j') ∈ matchFeatures cam C cur prev ↔
      (i' < prev.keypoints.length ∧
        (matchOneKeypoint (sortKeypointsByY cur.keypoints)
          (cornerRowLUT (sortKeypointsByY cur.keypoints) cam.imageHeight) cam.imageHeight
          cur.descriptors (prev.descriptors.getD i' [])
          (predictKeypoint cam C (prev.keypoints.getD i' (0, 0)))).found = true ∧
        ∃ c, (matchOneKeypoint (sortKeypointsByY cur.keypoints)
          (cornerRowLUT (sortKeypointsByY cur.keypoints) cam.imageHeight) cam.imageHeight
          cur.descriptors (prev.descriptors.getD i' [])
          (predictKeypoint cam C (prev.keypoints.getD i' (0, 0)))).itBest = some c
          ∧ c.index = j')) := by
    intro i' j'
    rw [matchFeatures]
    rw [List.mem_filterMap]
    constructor
    · rintro ⟨k, hk, hfk⟩
      rw [List.mem_range] at hk
      dsimp only at hfk
      by_cases hfnd : (matchOneKeypoint (sortKeypointsByY cur.keypoints)
          (cornerRowLUT (sortKeypointsByY cur.keypoints) cam.imageHeight) cam.imageHeight
          cur.descriptors (prev.descriptors.getD k [])
          (predictKeypoint cam C (prev.keypoints.getD k (0, 0)))).found = true
      · rw [if_pos hfnd] at hfk
        rcases Option.map_eq_some'.mp hfk with ⟨c, hc, hpair⟩
        have hki1 : k = i' := congrArg Prod.fst hpair
        have hki2 : c.index = j' := congrArg Prod.snd hpair
        subst hki1
        exact ⟨hk, hfnd, c, hc, hki2⟩
      · rw [if_neg hfnd] at hfk
        exact Option.noConfusion hfk
    · rintro ⟨hk, hfnd, c, hc, hcj⟩
      refine ⟨i', List.mem_range.mpr hk, ?_⟩
      dsimp only
      rw [if_pos hfnd, hc, Option.map_some', hcj]
  obtain ⟨hs1, hs2⟩ := matchOneKeypoint_eq_spec cur.keypoints cam.imageHeight hH
    cur.descriptors (prev.descriptors.getD i [])
    (predictKeypoint cam C (prev.keypoints.getD i (0, 0)))
  constructor
  · rw [hmem i j]
    constructor
    · rintro ⟨hiN, hfnd, c, hc, hcj⟩
      refine ⟨hiN, c, ?_, hcj⟩
      rw [← hs2, hc]
    · rintro ⟨hiN, c, hsel, hcj⟩
      refine ⟨hiN, ?_, c, ?_, hcj⟩
      · rw [hs1]
        exact decide_eq_true
          ((twoTierSelect_isSome_iff cur.keypoints cam.imageHeight hH cur.descriptors
            (prev.descriptors.getD i [])
            (predictKeypoint cam C (prev.keypoints.getD i (0, 0)))).mp (by rw [hsel]; rfl))
      · rw [hs2]
        exact hsel
  · constructor
    · rintro ⟨j2, hj2⟩
      rw [hmem i j2] at hj2
      obtain ⟨hiN, hfnd, -⟩ := hj2
      refine ⟨hiN, ?_⟩
      rw [← bestWindowScore_gt_iff_hamming]
      rw [hs1] at hfnd
      exact of_decide_eq_true hfnd
    · rintro ⟨hiN, c, hc, hham⟩
      have hb : 512 - kMatchingThresholdBits < bestWindowScore cur.descriptors
          (prev.descriptors.getD i [])
          (largeWindowOf (sortKeypointsByY cur.keypoints)
            (cornerRowLUT (sortKeypointsByY cur.keypoints) cam.imageHeight) cam.imageHeight
            (predictKeypoint cam C (prev.keypoints.getD i (0, 0)))) :=
        (bestWindowScore_gt_iff_hamming cur.descriptors (prev.descriptors.getD i []) _).mpr
          ⟨c, hc, hham⟩
      rcases Option.isSome_iff_exists.mp
        ((twoTierSelect_isSome_iff cur.keypoints cam.imageHeight hH cur.descriptors
          (prev.descriptors.getD i [])
          (predictKeypoint cam C (prev.keypoints.getD i (0, 0)))).mpr hb) with ⟨c0, hc0⟩
      refine ⟨c0.index, (hmem i c0.index).mpr ⟨hiN, ?_, c0, ?_, rfl⟩⟩
      · rw [hs1]
        exact decide_eq_true hb
      · rw [hs2]
        exact hc0

/-- Witness for C1: the characterization applied at a concrete 16x16 camera,
identity rotation, one-keypoint frames and the pair `(0, 0)`. -/
theorem matchFeatures_two_tier_characterization_witness :
    0 < (planeCamera 16 16).imageHeight ∧
    (((0, 0) ∈ matchFeatures (planeCamera 16 16) Mat3.identity curFrameProj prevFrameProj ↔
      0 < prevFrameProj.keypoints.length ∧
      ∃ c, twoTierSelect curFrameProj.descriptors (prevFrameProj.descriptors.getD 0 [])
          (smallWindowOf (sortKeypointsByY curFrameProj.keypoints)
            (cornerRowLUT (sortKeypointsByY curFrameProj.keypoints)
              (planeCamera 16 16).imageHeight) (planeCamera 16 16).imageHeight
            (predictKeypoint (planeCamera 16 16) Mat3.identity
              (prevFrameProj.keypoints.getD 0 (0, 0))))
          (largeWindowOf (sortKeypointsByY curFrameProj.keypoints)
            (cornerRowLUT (sortKeypointsByY curFrameProj.keypoints)
              (planeCamera 16 16).imageHeight) (planeCamera 16 16).imageHeight
            (predictKeypoint (planeCamera 16 16) Mat3.identity
              (prevFrameProj.keypoints.getD 0 (0, 0)))) = some c
        ∧ c.index = 0)
    ∧ ((∃ j2, (0, j2) ∈ matchFeatures (planeCamera 16 16) Mat3.identity
          curFrameProj prevFrameProj) ↔
      0 < prevFrameProj.keypoints.length ∧
      ∃ c ∈ largeWindowOf (sortKeypointsByY curFrameProj.keypoints)
          (cornerRowLUT (sortKeypointsByY curFrameProj.keypoints)
            (planeCamera 16 16).imageHeight) (planeCamera 16 16).imageHeight
          (predictKeypoint (planeCamera 16 16) Mat3.identity
            (prevFrameProj.keypoints.getD 0 (0, 0))),
        hammingDistance512 (prevFrameProj.descriptors.getD 0 [])
          (curFrameProj.descriptors.getD c.index []) < 120)) :=
  ⟨by decide, matchFeatures_two_tier_characterization (planeCamera 16 16) Mat3.identity
    curFrameProj prevFrameProj (by decide) 0 0⟩
